import Mathlib

/-!
# traKmeter: metering pipeline of `TraKmeterAudioProcessor`

A shallow embedding of `Source/plugin_processor.cpp`, of the `Averager`
declared in `Source/averager.h` and of the constructor of `MeterBarPeak` in
`Source/meter_bar_peak.cpp`.

Conventions of the embedding

* `float` and `double` values are rationals (every finite floating-point value
  is one); comparisons are exact, arithmetic is not rounded.
* `int` is `Int`; where the source increments or adds, the result is wrapped to
  32 bits by `wrapInt32`.  `unsigned int` is `Nat`, conversions from `int` go
  through `toUInt32`.
* Classes whose implementation is not part of the sources at hand
  (`AudioRingBuffer`, `MeterBallistics`, `AudioFilePlayer`, `Dither`) are
  represented by their constructor arguments and the calls they receive; what
  their query methods return is a parameter of the function that calls them.
* A null pointer is `none`; dereferencing it makes the operation return `none`.
-/

namespace TraKmeter

/-! ## Machine integers -/

/-- Two's complement wrap of an integer to the range of a 32 bit `int`. -/
def wrapInt32 (x : Int) : Int := (x + 2147483648) % 4294967296 - 2147483648

/-- Conversion of an `int` to `unsigned int`. -/
def toUInt32 (x : Int) : Nat := (x % 4294967296).toNat

/-! ## countOverflows -/

/-- The value of the literal `0.9999f`: the single precision number nearest to
0.9999, which is 16775538 / 2^24. -/
def overflowThreshold : ℚ := 8387769 / 8388608

/-- One pass of the loop body of `countOverflows`: `fSampleValue` is tested
against `-0.9999f` and `0.9999f`, the counter is incremented on a hit. -/
def countOverflowsStep (getSample : Nat → Nat → Nat → ℚ) (channel pre_delay : Nat)
    (nOverflows : Int) (uSample : Nat) : Int :=
  let fSampleValue := getSample channel uSample pre_delay
  if fSampleValue < -overflowThreshold ∨ fSampleValue > overflowThreshold then
    wrapInt32 (nOverflows + 1)
  else
    nOverflows

/-- Method `TraKmeterAudioProcessor::countOverflows`; `getSample` is
`ring_buffer->getSample`. The loop runs `uSample` over `0 .. length - 1`. -/
def countOverflows (getSample : Nat → Nat → Nat → ℚ) (channel length pre_delay : Nat) : Int :=
  (List.range length).foldl (countOverflowsStep getSample channel pre_delay) 0

/-- The threshold 0.9999 of the specification, as a decimal number. It lies
strictly between the literal `0.9999f` and the next single precision value,
16775539 / 2^24. -/
def fullScaleThreshold : ℚ := 9999 / 10000

/-- The finite values of a `float` (IEEE 754 single precision): an integer of
magnitude below 2^24 times a power of two with exponent from -149 to 104, the
exponent being written as the difference of `a` and `b`. -/
def isBinary32 (x : ℚ) : Prop :=
  ∃ (m : Int) (a b : Nat), |m| < 16777216 ∧ a ≤ 104 ∧ b ≤ 149 ∧ x = (m : ℚ) * 2 ^ a / 2 ^ b

/-- The count as the specification words it: the number of indices below
`length` whose sample has an absolute value that meets or exceeds the
threshold 0.9999. -/
def overflowCountSpec (getSample : Nat → Nat → Nat → ℚ) (channel length pre_delay : Nat) : Int :=
  ((List.range length).countP
    (fun i => decide (fullScaleThreshold ≤ |getSample channel i pre_delay|)) : Nat)

/-- The count the code takes: the number of indices below `length` whose sample
has an absolute value strictly above the threshold. -/
def overflowCountStrict (getSample : Nat → Nat → Nat → ℚ) (channel length pre_delay : Nat) : Int :=
  ((List.range length).countP
    (fun i => decide (overflowThreshold < |getSample channel i pre_delay|)) : Nat)

/-- A ring buffer all of whose samples sit exactly on the threshold `0.9999f`. -/
def ringAtThreshold : Nat → Nat → Nat → ℚ := fun _ _ _ => overflowThreshold

/-- A ring buffer holding the samples 1, 0.5, -1, 0, 0, ... on every channel. -/
def ringMixed : Nat → Nat → Nat → ℚ := fun _ i _ =>
  if i = 0 then 1 else if i = 1 then 1 / 2 else if i = 2 then -1 else 0

/-! ## Collaborating classes -/

/-- An `AudioSampleBuffer`: `getNumSamples()` and the channels in order, each
channel being the list of its `numSamples` samples. -/
structure AudioSampleBuffer where
  numSamples : Nat
  channels : List (List ℚ)
deriving DecidableEq

/-- The method `buffer.getNumChannels()`. -/
def AudioSampleBuffer.getNumChannels (buffer : AudioSampleBuffer) : Nat :=
  buffer.channels.length

/-- The call `buffer.clear(nChannel, 0, nNumSamples)` with
`nNumSamples = buffer.getNumSamples()`: every sample of the channel becomes 0.
A channel the buffer does not have is left alone. -/
def clearChannel : Nat → List (List ℚ) → List (List ℚ)
  | _, [] => []
  | 0, ch :: rest => List.replicate ch.length 0 :: rest
  | n + 1, ch :: rest => ch :: clearChannel n rest

/-- The loop `for (nChannel = first; nChannel < last; nChannel++)
buffer.clear(nChannel, 0, nNumSamples)`, for `first >= 0`. -/
def clearChannels (buffer : AudioSampleBuffer) (first last : Int) : AudioSampleBuffer :=
  { buffer with
    channels := (List.range' first.toNat (last.toNat - first.toNat)).foldl
      (fun chans nChannel => clearChannel nChannel chans) buffer.channels }

/-- The inner loop of the gain stage of `processBlock` on one channel: each
sample is read, multiplied by `dGain`, passed to `pDither->dither` and written
back; the state of the ditherer is threaded from sample to sample.
`dither st x` is the sample `Dither::dither(x)` returns in state `st`, and the
state it leaves. -/
def ditherChannel {D : Type} (dither : D → ℚ → ℚ × D) (dGain : ℚ) : D → List ℚ → List ℚ × D
  | st, [] => ([], st)
  | st, dSampleValue :: rest =>
    let r := dither st (dSampleValue * dGain)
    let tl := ditherChannel dither dGain r.2 rest
    (r.1 :: tl.1, tl.2)

/-- The outer loop of the gain stage: the channels are treated in ascending
order with the one ditherer `pDither`. -/
def ditherBuffer {D : Type} (dither : D → ℚ → ℚ × D) (dGain : ℚ) :
    D → List (List ℚ) → List (List ℚ) × D
  | st, [] => ([], st)
  | st, ch :: rest =>
    let r := ditherChannel dither dGain st ch
    let tl := ditherBuffer dither dGain r.2 rest
    (r.1 :: tl.1, tl.2)

/-- A call `addSamples(buffer, start, numSamples)` received by the ring buffer. -/
structure AddSamplesCall where
  buffer : AudioSampleBuffer
  start : Nat
  numSamples : Int
deriving DecidableEq

/-- The `AudioRingBuffer`: the arguments of its constructor (after the name),
whether `setCallbackClass` was called, and the `addSamples` calls received. -/
structure AudioRingBuffer where
  channels : Int
  length : Nat
  pre_delay : Int
  chunk_size : Int
  callbackSet : Bool
  added : List AddSamplesCall
deriving DecidableEq

/-- The method `addSamples` of the ring buffer, as a recorded call. -/
def AudioRingBuffer.addSamples (rb : AudioRingBuffer) (buffer : AudioSampleBuffer)
    (start : Nat) (numSamples : Int) : AudioRingBuffer :=
  { rb with added := rb.added ++ [⟨buffer, start, numSamples⟩] }

/-- What the query methods of the input ring buffer return. -/
structure RingReads where
  getSample : Nat → Nat → Nat → ℚ
  getMagnitude : Nat → Nat → Nat → ℚ
  getRMSLevel : Nat → Nat → Nat → ℚ

/-- A method call received by the `MeterBallistics` object. -/
inductive BallisticsCall where
  | updateChannel (nChannel : Int) (fTimePassed fPeak fRms : ℚ) (nOverflows : Int)
  | reset
  | setCrestFactor (crest_factor : Int)
deriving DecidableEq

/-- The `MeterBallistics` object: the five arguments of its constructor and
the calls it has received since, oldest first. -/
structure MeterBallistics where
  nChannels : Int
  nCrestFactor : Int
  ctorArg3 : Bool
  ctorArg4 : Bool
  bTransientMode : Bool
  calls : List BallisticsCall
deriving DecidableEq

/-- The ballistics object after one more call. -/
def MeterBallistics.receive (mb : MeterBallistics) (c : BallisticsCall) : MeterBallistics :=
  { mb with calls := mb.calls ++ [c] }

/-- A method call received by the `AudioFilePlayer`. -/
inductive FilePlayerCall where
  | setReporters (nSelectedChannel : Int) (bReportCSV bAverageMeterLevel bPeakMeterLevel : Bool)
  | setCrestFactor (crest_factor : Int)
  | fillBufferChunk
deriving DecidableEq

/-- The `AudioFilePlayer`: arguments of its constructor (the file by name, the
sample rate, the crest factor; the ballistics pointer is the processor's) and
the calls received. -/
structure AudioFilePlayer where
  fileAudio : String
  sample_rate : Int
  crest_factor : Int
  calls : List FilePlayerCall
deriving DecidableEq

/-- The file player after one more call. -/
def AudioFilePlayer.receive (fp : AudioFilePlayer) (c : FilePlayerCall) : AudioFilePlayer :=
  { fp with calls := fp.calls ++ [c] }

/-- Messages sent with `sendActionMessage`: "UM" (update meters), "V+"
(validation started), "V-" (validation stopped). -/
inductive ActionMessage where
  | UM
  | Vplus
  | Vminus
deriving DecidableEq

/-- What the plug-in framework and the parameter store answer during a call:
`getSampleRate()`, `getNumInputChannels()`, `getNumOutputChannels()`,
`getActiveEditor() != nullptr` and `getBoolean(selMixMode)`. -/
structure Host where
  getSampleRate : ℚ
  getNumInputChannels : Int
  getNumOutputChannels : Int
  getActiveEditor : Bool
  selMixMode : Bool

/-! ## The processor -/

/-- The member variables of `TraKmeterAudioProcessor`, and the action messages
sent so far. `D` is the state of the `Dither` object behind `pDither`. -/
structure TraKmeterAudioProcessor (D : Type) where
  bSampleRateIsValid : Bool
  audioFilePlayer : Option AudioFilePlayer
  pRingBufferInput : Option AudioRingBuffer
  nNumInputChannels : Int
  pMeterBallistics : Option MeterBallistics
  bTransientMode : Bool
  nCrestFactor : Int
  nDecibels : Int
  dGain : ℚ
  fProcessedSeconds : ℚ
  fPeakLevels : Option (List ℚ)
  fRmsLevels : Option (List ℚ)
  nOverflows : Option (List Int)
  nSamplesInBuffer : Int
  pDither : D
  actionMessages : List ActionMessage

/-- The method `sendActionMessage`. -/
def sendActionMessage {D : Type} (p : TraKmeterAudioProcessor D) (m : ActionMessage) :
    TraKmeterAudioProcessor D :=
  { p with actionMessages := p.actionMessages ++ [m] }

/-- Method `TraKmeterAudioProcessor::prepareToPlay`. `TRAKMETER_BUFFER_SIZE` and
`JucePlugin_MaxNumInputChannels` are the values of the two macros. -/
def prepareToPlay {D : Type} (h : Host) (TRAKMETER_BUFFER_SIZE JucePlugin_MaxNumInputChannels : Int)
    (p : TraKmeterAudioProcessor D) (sampleRate : ℚ) (samplesPerBlock : Int) :
    TraKmeterAudioProcessor D :=
  if sampleRate < 44100 ∨ sampleRate > 192000 then
    { p with bSampleRateIsValid := false }
  else
    let nNumInputChannels :=
      if h.getNumInputChannels < 1 then JucePlugin_MaxNumInputChannels else h.getNumInputChannels
    let uRingBufferSize : Nat :=
      toUInt32 (if samplesPerBlock > TRAKMETER_BUFFER_SIZE then samplesPerBlock
        else TRAKMETER_BUFFER_SIZE)
    { p with
      bSampleRateIsValid := true
      nNumInputChannels := nNumInputChannels
      pMeterBallistics := some ⟨nNumInputChannels, p.nCrestFactor, true, false, p.bTransientMode, []⟩
      fPeakLevels := some (List.replicate nNumInputChannels.toNat 0)
      fRmsLevels := some (List.replicate nNumInputChannels.toNat 0)
      nOverflows := some (List.replicate nNumInputChannels.toNat 0)
      nSamplesInBuffer := 0
      pRingBufferInput := some ⟨nNumInputChannels, uRingBufferSize, TRAKMETER_BUFFER_SIZE,
        TRAKMETER_BUFFER_SIZE, true, []⟩ }

/-- The part of `processBlock` between the two early returns and the call of
`addSamples`: clearing of the output channels without input, the file player,
and the gain stage. Returns the buffer and the state of the ditherer. -/
def processBlockBuffer {D : Type} (h : Host) (dither : D → ℚ → ℚ × D)
    (fillBufferChunk : AudioSampleBuffer → AudioSampleBuffer)
    (p : TraKmeterAudioProcessor D) (buffer : AudioSampleBuffer) : AudioSampleBuffer × D :=
  let cleared := clearChannels buffer p.nNumInputChannels h.getNumOutputChannels
  let filled := if p.audioFilePlayer.isSome then fillBufferChunk cleared else cleared
  let bMixMode := h.selMixMode
  if bMixMode = true ∧ p.nDecibels ≠ 0 then
    let r := ditherBuffer dither p.dGain p.pDither filled.channels
    ({ filled with channels := r.1 }, r.2)
  else
    (filled, p.pDither)

/-- Method `TraKmeterAudioProcessor::processBlock`. The buffer is passed by reference
in the source, so the buffer as it stands at the end is returned with the
processor. `fillBufferChunk` is what the file player does to a buffer. -/
def processBlock {D : Type} (h : Host) (TRAKMETER_BUFFER_SIZE : Int) (dither : D → ℚ → ℚ × D)
    (fillBufferChunk : AudioSampleBuffer → AudioSampleBuffer)
    (p : TraKmeterAudioProcessor D) (buffer : AudioSampleBuffer) :
    Option (TraKmeterAudioProcessor D × AudioSampleBuffer) :=
  let nNumSamples : Int := buffer.numSamples
  if p.bSampleRateIsValid = false then
    some (p, clearChannels buffer 0 h.getNumOutputChannels)
  else if p.nNumInputChannels < 1 then
    some (p, buffer)
  else
    let r := processBlockBuffer h dither fillBufferChunk p buffer
    match p.pRingBufferInput with
    | none => none
    | some rb =>
      some ({ p with
              audioFilePlayer := p.audioFilePlayer.map (fun fp => fp.receive .fillBufferChunk)
              pDither := r.2
              pRingBufferInput := some (rb.addSamples r.1 0 nNumSamples)
              nSamplesInBuffer :=
                Int.tmod (wrapInt32 (p.nSamplesInBuffer + nNumSamples)) TRAKMETER_BUFFER_SIZE },
            r.1)

/-- A sequence of `processBlock` calls, each with the answers of the host at
that time; the processor after the last call. -/
def processBlocks {D : Type} (TRAKMETER_BUFFER_SIZE : Int) (dither : D → ℚ → ℚ × D)
    (fillBufferChunk : AudioSampleBuffer → AudioSampleBuffer) :
    TraKmeterAudioProcessor D → List (Host × AudioSampleBuffer) → Option (TraKmeterAudioProcessor D)
  | p, [] => some p
  | p, (h, buffer) :: rest =>
    match processBlock h TRAKMETER_BUFFER_SIZE dither fillBufferChunk p buffer with
    | none => none
    | some r => processBlocks TRAKMETER_BUFFER_SIZE dither fillBufferChunk r.1 rest

/-- The number of samples of a sequence of blocks. -/
def totalSamples : List (Host × AudioSampleBuffer) → Nat
  | [] => 0
  | (_, buffer) :: rest => buffer.numSamples + totalSamples rest

/-- The body of the channel loop of `processBufferChunk` for one channel:
peak level, RMS level and overflow count are stored in the three arrays, then
handed to `pMeterBallistics->updateChannel`. -/
def processBufferChunkChannel {D : Type} (rd : RingReads) (uChunkSize uPreDelay : Nat)
    (p : TraKmeterAudioProcessor D) (nChannel : Nat) : Option (TraKmeterAudioProcessor D) :=
  match p.pRingBufferInput, p.fPeakLevels, p.fRmsLevels, p.nOverflows, p.pMeterBallistics with
  | some _, some peaks, some rms, some ovs, some mb =>
    if nChannel < peaks.length ∧ nChannel < rms.length ∧ nChannel < ovs.length then
      let fPeak := rd.getMagnitude nChannel uChunkSize uPreDelay
      let fRms := rd.getRMSLevel nChannel uChunkSize uPreDelay
      let nOvs := countOverflows rd.getSample nChannel uChunkSize uPreDelay
      some { p with
             fPeakLevels := some (peaks.set nChannel fPeak)
             fRmsLevels := some (rms.set nChannel fRms)
             nOverflows := some (ovs.set nChannel nOvs)
             pMeterBallistics :=
               some (mb.receive (.updateChannel nChannel p.fProcessedSeconds fPeak fRms nOvs)) }
    else
      none
  | _, _, _, _, _ => none

/-- The channel loop of `processBufferChunk` over the given channels in order. -/
def processBufferChunkLoop {D : Type} (rd : RingReads) (uChunkSize uPreDelay : Nat) :
    TraKmeterAudioProcessor D → List Nat → Option (TraKmeterAudioProcessor D)
  | p, [] => some p
  | p, nChannel :: rest =>
    match processBufferChunkChannel rd uChunkSize uPreDelay p nChannel with
    | none => none
    | some q => processBufferChunkLoop rd uChunkSize uPreDelay q rest

/-- Method `TraKmeterAudioProcessor::processBufferChunk`, called by the ring buffer
when a chunk is complete. `rd` holds what the ring buffer answers during the
call. The last two statements copy the chunk into a temporary buffer. -/
def processBufferChunk {D : Type} (h : Host) (rd : RingReads) (p : TraKmeterAudioProcessor D)
    (_buffer : AudioSampleBuffer) (uChunkSize _uBufferPosition _uProcessedSamples : Nat) :
    Option (TraKmeterAudioProcessor D) :=
  let hasOpenEditor := h.getActiveEditor
  let afterMeters : Option (TraKmeterAudioProcessor D) :=
    if hasOpenEditor = true then
      let uPreDelay := uChunkSize / 2
      let p1 := { p with fProcessedSeconds := (uChunkSize : ℚ) / h.getSampleRate }
      match processBufferChunkLoop rd uChunkSize uPreDelay p1
          (List.range p.nNumInputChannels.toNat) with
      | none => none
      | some q => some (sendActionMessage q .UM)
    else
      some p
  match afterMeters with
  | none => none
  | some q => if q.pRingBufferInput.isSome then some q else none

/-- Method `TraKmeterAudioProcessor::startValidation`. -/
def startValidation {D : Type} (h : Host) (p : TraKmeterAudioProcessor D) (fileAudio : String)
    (nSelectedChannel : Int) (bReportCSV bAverageMeterLevel bPeakMeterLevel : Bool) :
    Option (TraKmeterAudioProcessor D) :=
  let player : AudioFilePlayer :=
    ⟨fileAudio, Int.tdiv h.getSampleRate.num h.getSampleRate.den, p.nCrestFactor, []⟩
  let player := player.receive
    (.setReporters nSelectedChannel bReportCSV bAverageMeterLevel bPeakMeterLevel)
  match p.pMeterBallistics with
  | none => none
  | some mb =>
    some (sendActionMessage
      { p with audioFilePlayer := some player, pMeterBallistics := some (mb.receive .reset) }
      .Vplus)

/-- Method `TraKmeterAudioProcessor::stopValidation`. -/
def stopValidation {D : Type} (p : TraKmeterAudioProcessor D) : TraKmeterAudioProcessor D :=
  sendActionMessage { p with audioFilePlayer := none } .Vminus

/-- Method `TraKmeterAudioProcessor::isValidating`; `isPlaying` is the answer of the
file player. -/
def isValidating {D : Type} (isPlaying : Bool) (p : TraKmeterAudioProcessor D) :
    TraKmeterAudioProcessor D × Bool :=
  match p.audioFilePlayer with
  | none => (p, false)
  | some _ => if isPlaying then (p, true) else (stopValidation p, false)

/-- Method `TraKmeterAudioProcessor::getTransientMode`. -/
def getTransientMode {D : Type} (p : TraKmeterAudioProcessor D) : Bool := p.bTransientMode

/-- Method `TraKmeterAudioProcessor::setTransientMode`: a change of mode replaces the
ballistics object by a new one. -/
def setTransientMode {D : Type} (p : TraKmeterAudioProcessor D) (transient_mode : Bool) :
    TraKmeterAudioProcessor D :=
  if transient_mode ≠ p.bTransientMode then
    { p with
      bTransientMode := transient_mode
      pMeterBallistics := p.pMeterBallistics.map
        (fun _ => ⟨p.nNumInputChannels, p.nCrestFactor, true, false, transient_mode, []⟩) }
  else
    p

/-- Method `TraKmeterAudioProcessor::getCrestFactor`. -/
def getCrestFactor {D : Type} (p : TraKmeterAudioProcessor D) : Int := p.nCrestFactor

/-- Method `TraKmeterAudioProcessor::setCrestFactor`. -/
def setCrestFactor {D : Type} (p : TraKmeterAudioProcessor D) (crest_factor : Int) :
    TraKmeterAudioProcessor D :=
  if crest_factor ≠ p.nCrestFactor then
    { p with
      nCrestFactor := crest_factor
      pMeterBallistics := p.pMeterBallistics.map (fun mb => mb.receive (.setCrestFactor crest_factor))
      audioFilePlayer := p.audioFilePlayer.map (fun fp => fp.receive (.setCrestFactor crest_factor)) }
  else
    p

/-- Method `TraKmeterAudioProcessor::createEditor`; returned with the processor are
the channel count and crest factor the new editor is constructed with. -/
def createEditor {D : Type} (JucePlugin_MaxNumInputChannels : Int) (p : TraKmeterAudioProcessor D) :
    TraKmeterAudioProcessor D × Int × Int :=
  let q := { p with pMeterBallistics := p.pMeterBallistics.map (fun mb => mb.receive .reset) }
  if p.nNumInputChannels > 0 then
    (q, p.nNumInputChannels, p.nCrestFactor)
  else
    (q, JucePlugin_MaxNumInputChannels, p.nCrestFactor)

/-- The `updateChannel` call the chunk analysis owes to channel `nChannel`:
duration `uChunkSize / sampleRate`, and peak, RMS and overflow count over
`uChunkSize` samples read with a pre-delay of `uChunkSize / 2`. -/
def chunkUpdateCall (h : Host) (rd : RingReads) (uChunkSize : Nat) (nChannel : Nat) :
    BallisticsCall :=
  .updateChannel nChannel ((uChunkSize : ℚ) / h.getSampleRate)
    (rd.getMagnitude nChannel uChunkSize (uChunkSize / 2))
    (rd.getRMSLevel nChannel uChunkSize (uChunkSize / 2))
    (countOverflows rd.getSample nChannel uChunkSize (uChunkSize / 2))

/-- A ditherer run over a sequence of values one after the other. -/
def ditherSeq {D : Type} (dither : D → ℚ → ℚ × D) : D → List ℚ → List ℚ × D
  | st, [] => ([], st)
  | st, x :: rest =>
    let r := dither st x
    let tl := ditherSeq dither r.2 rest
    (r.1 :: tl.1, tl.2)

/-! ## Averager -/

/-- The member variables of the class `Averager` as declared in `averager.h`;
`pSamples` is the array of `nNumberOfSamples` slots. -/
structure Averager where
  bIsValid : Bool
  nNumberOfSamples : Nat
  fNumberOfSamples : ℚ
  nCurrentSample : Nat
  fSum : ℚ
  pSamples : List ℚ
deriving DecidableEq

/-- Modelled from the spec: the constructor `Averager(number_of_samples,
initial_value)`, whose body is not among the sources. Section 4.4: capacity and
initial fill value are fixed at construction, all slots are pre-filled with the
initial value; the running sum starts as the sum of the slots and the averager
is not valid. -/
def Averager.create (number_of_samples : Nat) (initial_value : ℚ) : Averager :=
  { bIsValid := false
    nNumberOfSamples := number_of_samples
    fNumberOfSamples := number_of_samples
    nCurrentSample := 0
    fSum := number_of_samples * initial_value
    pSamples := List.replicate number_of_samples initial_value }

/-- Modelled from the spec: `Averager::addSample`, whose body is not among the
sources. Section 4.4: overwrites the oldest slot of the circular window and
updates the running sum by subtracting the outgoing and adding the incoming
value; the averager is valid once the window has been filled. -/
def Averager.addSample (a : Averager) (newSample : ℚ) : Averager :=
  let fOutgoing := a.pSamples.getD a.nCurrentSample 0
  let nNext := a.nCurrentSample + 1
  { a with
    fSum := a.fSum - fOutgoing + newSample
    pSamples := a.pSamples.set a.nCurrentSample newSample
    nCurrentSample := if nNext ≥ a.nNumberOfSamples then 0 else nNext
    bIsValid := if nNext ≥ a.nNumberOfSamples then true else a.bIsValid }

/-- Modelled from the spec: `Averager::isValid`, whose body is not among the
sources. Section 4.4: true once the window has been filled at least once. -/
def Averager.isValid (a : Averager) : Bool := a.bIsValid

/-- Modelled from the spec: `Averager::getSimpleMovingAverage`, whose body is
not among the sources. Section 4.4: the running sum divided by the capacity. -/
def Averager.getSimpleMovingAverage (a : Averager) : ℚ := a.fSum / a.fNumberOfSamples

/-- A sequence of `addSample` calls, first sample first. -/
def Averager.addSamples (a : Averager) (samples : List ℚ) : Averager :=
  samples.foldl Averager.addSample a

/-- The state of an averager of capacity `N` and initial value `init` after the
samples `xs`: the write index is the number of samples modulo `N`, the
averager is valid once `N` samples have come, slot `i mod N` holds sample `i`
for the last `N` samples, unwritten slots hold `init`, and the running sum is
the sum of the slots. -/
def AveragerInv (N : Nat) (init : ℚ) (xs : List ℚ) (a : Averager) : Prop :=
  a.nNumberOfSamples = N ∧ a.fNumberOfSamples = N ∧ a.pSamples.length = N ∧
  a.nCurrentSample = xs.length % N ∧
  a.bIsValid = decide (N ≤ xs.length) ∧
  (∀ i, i < xs.length → xs.length ≤ i + N → a.pSamples[i % N]? = xs[i]?) ∧
  (∀ j, xs.length ≤ j → j < N → a.pSamples[j]? = some init) ∧
  a.fSum = (if N ≤ xs.length then (xs.drop (xs.length - N)).sum
    else ((N - xs.length : Nat) : ℚ) * init + xs.sum)

/-! ## Concrete states used by the examples -/

/-- A host running two inputs and two outputs at 44100 Hz, editor open, mix
mode off. -/
def hostStereo : Host :=
  { getSampleRate := 44100, getNumInputChannels := 2, getNumOutputChannels := 2,
    getActiveEditor := true, selMixMode := false }

/-- The host of `hostStereo` with the editor closed. -/
def hostStereoClosed : Host := { hostStereo with getActiveEditor := false }

/-- The ballistics object `prepareToPlay` constructs for two channels, crest
factor 20, transient mode off. -/
def ballisticsStereo : MeterBallistics :=
  { nChannels := 2, nCrestFactor := 20, ctorArg3 := true, ctorArg4 := false,
    bTransientMode := false, calls := [] }

/-- The ring buffer `prepareToPlay` constructs for two channels, a block size
of 512 and a chunk size of 1024. -/
def ringStereo : AudioRingBuffer :=
  { channels := 2, length := 1024, pre_delay := 1024, chunk_size := 1024, callbackSet := true,
    added := [] }

/-- A processor as `prepareToPlay` leaves it for `hostStereo` (two channels,
chunk size 1024, crest factor 20, no gain); the ditherer state is a rational. -/
def procStereo : TraKmeterAudioProcessor ℚ :=
  { bSampleRateIsValid := true, audioFilePlayer := none, pRingBufferInput := some ringStereo,
    nNumInputChannels := 2, pMeterBallistics := some ballisticsStereo, bTransientMode := false,
    nCrestFactor := 20, nDecibels := 0, dGain := 1, fProcessedSeconds := 0,
    fPeakLevels := some [0, 0], fRmsLevels := some [0, 0], nOverflows := some [0, 0],
    nSamplesInBuffer := 0, pDither := 0, actionMessages := [] }

/-- Ring buffer answers for the examples: samples of `ringMixed`, and constant
peak and RMS readings. -/
def readsMixed : RingReads :=
  { getSample := ringMixed, getMagnitude := fun _ _ _ => 1, getRMSLevel := fun _ _ _ => 1 / 2 }

/-- An empty buffer of 1024 samples per channel without channels. -/
def bufferNone : AudioSampleBuffer := { numSamples := 1024, channels := [] }

/-- Modelled from the spec: `Dither::dither` for a bit depth of `nBits` (the
class `Dither` is not among the sources). Section 4.3 of the specification: one
error-feedback accumulator, added to the sample before quantisation and
subtracted after. The state is the accumulated error; the randomisation of the
quantisation level is left out. -/
def ditherModel (nBits : Nat) (fError : ℚ) (dSourceValue : ℚ) : ℚ × ℚ :=
  let dScaled := (dSourceValue + fError) * 2 ^ (nBits - 1)
  let dQuantised := ((⌊dScaled + 1 / 2⌋ : Int) : ℚ) / 2 ^ (nBits - 1)
  (dQuantised, dSourceValue + fError - dQuantised)

/-- A two-channel buffer of `n` samples of silence. -/
def bufferSilence (n : Nat) : AudioSampleBuffer :=
  { numSamples := n, channels := [List.replicate n 0, List.replicate n 0] }

/-- Four blocks of 256 samples. -/
def blocks4x256 : List (Host × AudioSampleBuffer) :=
  [(hostStereo, bufferSilence 256), (hostStereo, bufferSilence 256),
   (hostStereo, bufferSilence 256), (hostStereo, bufferSilence 256)]

/-- The ballistics object of `ballisticsStereo` after the `reset` of
`startValidation`. -/
def ballisticsValidating : MeterBallistics := ballisticsStereo.receive .reset

/-- The processor of `procStereo` while a validation runs: the file player
exists and the ballistics have been reset once, by `startValidation`. -/
def procValidating : TraKmeterAudioProcessor ℚ :=
  { procStereo with
    audioFilePlayer := some
      { fileAudio := "validation.wav", sample_rate := 44100, crest_factor := 20,
        calls := [.setReporters 0 false true true] }
    pMeterBallistics := some ballisticsValidating
    actionMessages := [.Vplus] }

/-- A host with one input and two outputs, mix mode off. -/
def hostMonoIn : Host :=
  { getSampleRate := 44100, getNumInputChannels := 1, getNumOutputChannels := 2,
    getActiveEditor := true, selMixMode := false }

/-- A processor as `prepareToPlay` leaves it for one input channel. -/
def procMono : TraKmeterAudioProcessor ℚ :=
  { procStereo with
    nNumInputChannels := 1
    pRingBufferInput := some { ringStereo with channels := 1 }
    pMeterBallistics := some { ballisticsStereo with nChannels := 1 }
    fPeakLevels := some [0], fRmsLevels := some [0], nOverflows := some [0] }

/-- A block of one sample on two channels; the second channel, an output
without input, holds a left-over value. -/
def bufferLeftOver : AudioSampleBuffer := { numSamples := 1, channels := [[1 / 2], [1 / 2]] }

/-- The host of `hostStereo` with mix mode on. -/
def hostMix : Host := { hostStereo with selMixMode := true }

/-- The processor of `procStereo` with a gain of +20 dB, a factor of 10. -/
def procGain : TraKmeterAudioProcessor ℚ := { procStereo with nDecibels := 20, dGain := 10 }

/-- A block of one sample: silence on channel 0, 2^-28 on channel 1. -/
def bufferQuiet : AudioSampleBuffer := { numSamples := 1, channels := [[0], [1 / 268435456]] }

/-- The block of `bufferQuiet` with 2^-26 on channel 0 instead of silence. -/
def bufferLoud : AudioSampleBuffer :=
  { numSamples := 1, channels := [[1 / 67108864], [1 / 268435456]] }

/-- The block of `bufferLoud` with 1/2 on channel 1. -/
def bufferLoudOther : AudioSampleBuffer :=
  { numSamples := 1, channels := [[1 / 67108864], [1 / 2]] }

/-! ## MeterBarPeak

The embedding of the constructor in `Source/meter_bar_peak.cpp`. Thresholds are
`int` values in tenths of a decibel; the conversion to decibels (`* 0.1f`,
`/ 10.0f`) is a division by ten in the rationals. -/

/-- The arguments a `MeterSegment` is constructed with, after its name:
threshold and range in decibels, `bDiscreteLevels`, `display_peaks` and the
colour index. -/
structure MeterSegment where
  fThreshold : ℚ
  fRange : ℚ
  bDiscreteLevels : Bool
  display_peaks : Bool
  nColor : Int
deriving DecidableEq

/-- The local variables of the constructor that live across the segment loop. -/
structure SegmentLoopState where
  nThreshold : Int
  nTrueThreshold : Int
  fRange : ℚ
  nColor : Int
  bDiscreteLevels : Bool
deriving DecidableEq

/-- The statements of the constructor between the allocation of
`pMeterSegments` and the loop: `nThreshold`, `nTrueThreshold`, the range that
registers hot signals up to +100 dB FS, `nColor` and `bDiscreteLevels`. -/
def segmentLoopStart (nCrestFactor : Int) (show_combined_meters : Bool) : SegmentLoopState :=
  let nThresholdInitial : Int := if show_combined_meters then -90 else -90
  let nThreshold := wrapInt32 (nThresholdInitial + nCrestFactor)
  let nTrueThreshold := wrapInt32 (nThreshold - nCrestFactor)
  { nThreshold := nThreshold
    nTrueThreshold := nTrueThreshold
    fRange := ((wrapInt32 (nCrestFactor - nThreshold) : Int) : ℚ) * (1 / 10) + 100
    nColor := 0
    bDiscreteLevels := true }

/-- The choice of `nThresholdDifference` at the head of the loop body. -/
def thresholdDifference (nTrueThreshold : Int) : Int :=
  if nTrueThreshold > -260 then 10 else if nTrueThreshold > -300 then 40 else 100

/-- The choice of `nColor` in the loop body. -/
def segmentColor (nTrueThreshold : Int) : Int :=
  if nTrueThreshold ≥ -90 then 0
  else if nTrueThreshold ≥ -100 then 1
  else if nTrueThreshold ≥ -160 then 2
  else 3

/-- One pass of the segment loop: the loop variables are updated first, the
segment is constructed from the updated values. -/
def segmentLoopBody (nCrestFactor : Int) (display_peaks : Bool) (st : SegmentLoopState) :
    SegmentLoopState × MeterSegment :=
  let nThresholdDifference := thresholdDifference st.nTrueThreshold
  let nThreshold := wrapInt32 (st.nThreshold - nThresholdDifference)
  let fRange : ℚ := (nThresholdDifference : ℚ) / 10
  let bDiscreteLevels := false
  let nTrueThreshold := wrapInt32 (nThreshold - nCrestFactor)
  let nColor := segmentColor nTrueThreshold
  ({ nThreshold := nThreshold, nTrueThreshold := nTrueThreshold, fRange := fRange,
     nColor := nColor, bDiscreteLevels := bDiscreteLevels },
   { fThreshold := (nThreshold : ℚ) * (1 / 10), fRange := fRange,
     bDiscreteLevels := bDiscreteLevels, display_peaks := display_peaks, nColor := nColor })

/-- The segment loop run for the given number of passes; the segments in the
order of construction, `pMeterSegments[0]` first. -/
def segmentLoop (nCrestFactor : Int) (display_peaks : Bool) :
    Nat → SegmentLoopState → List MeterSegment
  | 0, _ => []
  | k + 1, st =>
    let r := segmentLoopBody nCrestFactor display_peaks st
    r.2 :: segmentLoop nCrestFactor display_peaks k r.1

/-- The member variables of `MeterBarPeak` the constructor sets. -/
structure MeterBarPeak where
  nNumberOfBars : Int
  nSegmentHeight : Int
  nPosX : Int
  nPosY : Int
  nWidth : Int
  nHeight : Int
  fPeakLevel : ℚ
  fPeakLevelPeak : ℚ
  fPeakLevelMaximum : ℚ
  pMeterSegments : List MeterSegment
deriving DecidableEq

/-- The constructor `MeterBarPeak::MeterBarPeak` (the component name left out). -/
def MeterBarPeak.create (pos_x pos_y width number_of_bars crest_factor segment_height : Int)
    (display_peaks show_combined_meters : Bool) : MeterBarPeak :=
  let nCrestFactor := wrapInt32 (10 * crest_factor)
  { nNumberOfBars := number_of_bars
    nSegmentHeight := segment_height
    nPosX := pos_x
    nPosY := pos_y
    nWidth := width
    nHeight := wrapInt32 (wrapInt32 (number_of_bars * segment_height) + 1)
    fPeakLevel := -49999 / 5
    fPeakLevelPeak := -49999 / 5
    fPeakLevelMaximum := -49999 / 5
    pMeterSegments := segmentLoop nCrestFactor display_peaks number_of_bars.toNat
      (segmentLoopStart nCrestFactor show_combined_meters) }

/-- The threshold of segment `n` in tenths of a decibel for crest factor `c`,
as the specification gives it: `10c - 100 - 10n` up to `n = 16`, `10c - 300`
for `n = 17`, and `10c - 400 - 100 (n - 18)` from `n = 18` on. -/
def segmentThresholdTenths (c : Int) (n : Nat) : Int :=
  if n ≤ 16 then 10 * c - 100 - 10 * (n : Int)
  else if n = 17 then 10 * c - 300
  else 10 * c - 400 - 100 * ((n : Int) - 18)

/-- The range of segment `n` in decibels, as the specification gives it: 1 dB
up to `n = 16`, 4 dB for `n = 17`, 10 dB from `n = 18` on. -/
def segmentRangeDb (n : Nat) : ℚ :=
  if n ≤ 16 then 1 else if n = 17 then 4 else 10

/-- The value of `nTrueThreshold` when pass `n` of the segment loop begins:
-90 before the first pass, then the threshold of the segment built last,
without the crest factor. -/
def trueThresholdBefore (n : Nat) : Int :=
  if n ≤ 17 then -90 - 10 * (n : Int)
  else if n = 18 then -300
  else -400 - 100 * ((n : Int) - 19)

/-- The segment the loop builds in pass `n` when no `int` overflows;
`nCrestFactor` is ten times the crest factor. -/
def segmentBuilt (nCrestFactor : Int) (display_peaks : Bool) (n : Nat) : MeterSegment :=
  { fThreshold := ((nCrestFactor + trueThresholdBefore (n + 1) : Int) : ℚ) * (1 / 10)
    fRange := (thresholdDifference (trueThresholdBefore n) : ℚ) / 10
    bDiscreteLevels := false
    display_peaks := display_peaks
    nColor := segmentColor (trueThresholdBefore (n + 1)) }

/-! ## Lemmas: countOverflows -/

theorem wrapInt32_of_range {x : Int} (h1 : -2147483648 ≤ x) (h2 : x < 2147483648) :
    wrapInt32 x = x := by
  unfold wrapInt32
  omega

theorem overflowThreshold_pos : 0 < overflowThreshold := by
  unfold overflowThreshold
  norm_num

theorem overflow_test_iff (x : ℚ) :
    (x < -overflowThreshold ∨ x > overflowThreshold) ↔ overflowThreshold < |x| := by
  rw [lt_abs]
  constructor
  · rintro (h | h)
    · right; linarith
    · left; exact h
  · rintro (h | h)
    · right; exact h
    · left; linarith

theorem countOverflows_foldl (getSample : Nat → Nat → Nat → ℚ) (channel pre_delay : Nat)
    (l : List Nat) (acc : Int) (h0 : 0 ≤ acc) (hlen : acc + l.length < 2147483648) :
    l.foldl (countOverflowsStep getSample channel pre_delay) acc
      = acc + ((l.countP
          (fun i => decide (overflowThreshold < |getSample channel i pre_delay|)) : Nat) : Int) := by
  induction l generalizing acc with
  | nil => simp
  | cons i rest ih =>
    simp only [List.foldl_cons, List.length_cons] at hlen ⊢
    push_cast at hlen
    by_cases hx : overflowThreshold < |getSample channel i pre_delay|
    · have hstep : countOverflowsStep getSample channel pre_delay acc i = acc + 1 := by
        unfold countOverflowsStep
        simp only [overflow_test_iff, hx, if_true]
        exact wrapInt32_of_range (by omega) (by omega)
      rw [hstep, ih (acc + 1) (by omega) (by omega)]
      simp [List.countP_cons, hx]
      ring
    · have hstep : countOverflowsStep getSample channel pre_delay acc i = acc := by
        unfold countOverflowsStep
        simp only [overflow_test_iff, hx, if_false]
      rw [hstep, ih acc h0 (by omega)]
      simp [List.countP_cons, hx]


theorem countOverflows_eq_strict_count (getSample : Nat → Nat → Nat → ℚ)
    (channel length pre_delay : Nat) (hlen : length < 2147483648) :
    countOverflows getSample channel length pre_delay
        = overflowCountStrict getSample channel length pre_delay
      ∧ ((∀ i, i < length → |getSample channel i pre_delay| ≤ overflowThreshold) →
          countOverflows getSample channel length pre_delay = 0) := by
  have hcount : countOverflows getSample channel length pre_delay
      = overflowCountStrict getSample channel length pre_delay := by
    unfold countOverflows overflowCountStrict
    rw [countOverflows_foldl getSample channel pre_delay (List.range length) 0 le_rfl
      (by simp only [List.length_range]; omega)]
    simp
  refine ⟨hcount, fun hall => ?_⟩
  rw [hcount]
  unfold overflowCountStrict
  have hzero : (List.range length).countP
      (fun i => decide (overflowThreshold < |getSample channel i pre_delay|)) = 0 := by
    rw [List.countP_eq_zero]
    intro i hi
    have hlt : i < length := List.mem_range.mp hi
    simpa using hall i hlt
  rw [hzero]
  rfl

theorem isBinary32_neg {x : ℚ} (h : isBinary32 x) : isBinary32 (-x) := by
  obtain ⟨m, a, b, hm, ha, hb, hx⟩ := h
  refine ⟨-m, a, b, by simpa using hm, ha, hb, ?_⟩
  rw [hx]
  push_cast
  ring

theorem isBinary32_abs {x : ℚ} (h : isBinary32 x) : isBinary32 |x| := by
  rcases abs_choice x with hc | hc
  · rw [hc]; exact h
  · rw [hc]; exact isBinary32_neg h

theorem binary32_gap {x : ℚ} (h : isBinary32 x) (hx : overflowThreshold < x) :
    (16775539 : ℚ) / 16777216 ≤ x := by
  obtain ⟨m, a, b, hm, _, _, rfl⟩ := h
  unfold overflowThreshold at hx
  have hb0 : (0 : ℚ) < 2 ^ b := by positivity
  have hm' : m < 16777216 := lt_of_le_of_lt (le_abs_self m) hm
  by_cases hcase : b ≤ a + 24
  · obtain ⟨k, hk⟩ : ∃ k : Nat, a + 24 = b + k := ⟨a + 24 - b, by omega⟩
    have hpow : (2 : ℚ) ^ a * 16777216 = 2 ^ b * 2 ^ k := by
      have h24 : (16777216 : ℚ) = 2 ^ 24 := by norm_num
      rw [h24, ← pow_add, ← pow_add, hk]
    have hval : (m : ℚ) * 2 ^ a / 2 ^ b = ((m * 2 ^ k : Int) : ℚ) / 16777216 := by
      rw [div_eq_div_iff hb0.ne' (by norm_num)]
      push_cast
      calc (m : ℚ) * 2 ^ a * 16777216 = m * (2 ^ a * 16777216) := by ring
        _ = m * (2 ^ b * 2 ^ k) := by rw [hpow]
        _ = m * 2 ^ k * 2 ^ b := by ring
    rw [hval] at hx ⊢
    have hlt : (16775538 : ℚ) < ((m * 2 ^ k : Int) : ℚ) := by
      have := (lt_div_iff₀ (by norm_num : (0 : ℚ) < 16777216)).mp hx
      norm_num at this
      linarith
    have hint : (16775538 : Int) < m * 2 ^ k := by exact_mod_cast hlt
    have hge : ((16775539 : Int) : ℚ) ≤ ((m * 2 ^ k : Int) : ℚ) := by
      exact_mod_cast (by omega : (16775539 : Int) ≤ m * 2 ^ k)
    have hdiv := div_le_div_of_nonneg_right hge (by norm_num : (0 : ℚ) ≤ 16777216)
    push_cast at hdiv ⊢
    exact hdiv
  · exfalso
    obtain ⟨k, hk⟩ : ∃ k : Nat, b = a + 25 + k := ⟨b - a - 25, by omega⟩
    have ha0 : (0 : ℚ) < 2 ^ a := by positivity
    have hk1 : (1 : ℚ) ≤ 2 ^ k := one_le_pow₀ (by norm_num)
    have hpow : (2 : ℚ) ^ b = 2 ^ a * (33554432 * 2 ^ k) := by
      have h25 : (33554432 : ℚ) = 2 ^ 25 := by norm_num
      rw [hk, h25, pow_add, pow_add]
      ring
    have hval : (m : ℚ) * 2 ^ a / 2 ^ b = (m : ℚ) / (33554432 * 2 ^ k) := by
      rw [hpow]
      field_simp
      ring
    rw [hval] at hx
    have hden : (0 : ℚ) < 33554432 * 2 ^ k := by positivity
    have hmq : (m : ℚ) < 16777216 := by exact_mod_cast hm'
    have := (lt_div_iff₀ hden).mp hx
    nlinarith

theorem overflow_test_iff_full_scale {x : ℚ} (h : isBinary32 x) :
    overflowThreshold < |x| ↔ fullScaleThreshold ≤ |x| := by
  constructor
  · intro hlt
    have := binary32_gap (isBinary32_abs h) hlt
    unfold fullScaleThreshold
    linarith [show (9999 : ℚ) / 10000 ≤ 16775539 / 16777216 by norm_num]
  · intro hge
    unfold fullScaleThreshold at hge
    unfold overflowThreshold
    linarith [show (8387769 : ℚ) / 8388608 < 9999 / 10000 by norm_num]

theorem isBinary32_overflowThreshold : isBinary32 overflowThreshold :=
  ⟨16775538, 0, 24, by decide, by decide, by decide, by unfold overflowThreshold; norm_num⟩

theorem countOverflows_at_threshold_agrees :
    countOverflows ringAtThreshold 0 1 0 = 0 ∧ overflowCountSpec ringAtThreshold 0 1 0 = 0 := by
  have hrange : List.range 1 = [0] := rfl
  constructor
  · simp only [countOverflows, countOverflowsStep, ringAtThreshold, hrange, List.foldl_cons,
      List.foldl_nil]
    have hpos := overflowThreshold_pos
    rw [if_neg]
    rintro (h | h)
    · linarith
    · exact lt_irrefl _ h
  · have habs : |overflowThreshold| = overflowThreshold := abs_of_pos overflowThreshold_pos
    have hbelow : ¬ fullScaleThreshold ≤ overflowThreshold := by
      unfold fullScaleThreshold overflowThreshold
      norm_num
    simp [overflowCountSpec, ringAtThreshold, hrange, habs, hbelow]

theorem isBinary32_ringMixed (i : Nat) : isBinary32 (ringMixed 0 i 0) := by
  unfold ringMixed
  split_ifs
  · exact ⟨1, 0, 0, by decide, by decide, by decide, by norm_num⟩
  · exact ⟨1, 0, 1, by decide, by decide, by decide, by norm_num⟩
  · exact ⟨-1, 0, 0, by decide, by decide, by decide, by norm_num⟩
  · exact ⟨0, 0, 0, by decide, by decide, by decide, by norm_num⟩

/-- C1: for a window of `float` samples shorter than 2^31, `countOverflows`
returns exactly the number of indices `i < length` whose sample
`getSample(channel, i, pre_delay)` is an overflow, a sample being an overflow
iff its absolute value meets or exceeds the threshold 0.9999; in particular it
returns 0 when every sample of the window is strictly within ±0.9999. The
strict comparison of the code against `0.9999f` decides the same, as no
`float` lies between `0.9999f` and 0.9999. -/
theorem countOverflows_counts_full_scale_samples (getSample : Nat → Nat → Nat → ℚ)
    (channel length pre_delay : Nat) (hlen : length < 2147483648)
    (hfloat : ∀ i, i < length → isBinary32 (getSample channel i pre_delay)) :
    countOverflows getSample channel length pre_delay
        = overflowCountSpec getSample channel length pre_delay
      ∧ ((∀ i, i < length → |getSample channel i pre_delay| < fullScaleThreshold) →
          countOverflows getSample channel length pre_delay = 0) := by
  have hstrict := (countOverflows_eq_strict_count getSample channel length pre_delay hlen).1
  have hsame : overflowCountStrict getSample channel length pre_delay
      = overflowCountSpec getSample channel length pre_delay := by
    unfold overflowCountStrict overflowCountSpec
    congr 1
    apply List.countP_congr
    intro i hi
    have hlt : i < length := List.mem_range.mp hi
    simp only [decide_eq_true_eq]
    exact overflow_test_iff_full_scale (hfloat i hlt)
  refine ⟨hstrict.trans hsame, fun hall => ?_⟩
  rw [hstrict.trans hsame]
  unfold overflowCountSpec
  have hzero : (List.range length).countP
      (fun i => decide (fullScaleThreshold ≤ |getSample channel i pre_delay|)) = 0 := by
    rw [List.countP_eq_zero]
    intro i hi
    have hlt : i < length := List.mem_range.mp hi
    simpa using hall i hlt
  rw [hzero]
  rfl

/-- Witness of C1: a window of the four samples 1, 0.5, -1, 0. -/
theorem countOverflows_counts_full_scale_samples_witness :
    countOverflows ringMixed 0 4 0 = overflowCountSpec ringMixed 0 4 0
      ∧ ((∀ i, i < 4 → |ringMixed 0 i 0| < fullScaleThreshold) →
          countOverflows ringMixed 0 4 0 = 0) :=
  countOverflows_counts_full_scale_samples ringMixed 0 4 0 (by decide)
    (fun i _ => isBinary32_ringMixed i)


/-! ## Lemmas: processBufferChunk -/

theorem processBufferChunkChannel_ready {D : Type} (rd : RingReads) (uChunkSize uPreDelay : Nat)
    (p : TraKmeterAudioProcessor D) (ch : Nat) (rb : AudioRingBuffer) (peaks rms : List ℚ)
    (ovs : List Int) (mb : MeterBallistics)
    (hrb : p.pRingBufferInput = some rb) (hpk : p.fPeakLevels = some peaks)
    (hrms : p.fRmsLevels = some rms) (hov : p.nOverflows = some ovs)
    (hmb : p.pMeterBallistics = some mb)
    (hch : ch < peaks.length ∧ ch < rms.length ∧ ch < ovs.length) :
    ∃ q, processBufferChunkChannel rd uChunkSize uPreDelay p ch = some q ∧
      q.pRingBufferInput = some rb ∧
      q.fPeakLevels = some (peaks.set ch (rd.getMagnitude ch uChunkSize uPreDelay)) ∧
      q.fRmsLevels = some (rms.set ch (rd.getRMSLevel ch uChunkSize uPreDelay)) ∧
      q.nOverflows = some (ovs.set ch (countOverflows rd.getSample ch uChunkSize uPreDelay)) ∧
      q.pMeterBallistics = some (mb.receive (.updateChannel ch p.fProcessedSeconds
        (rd.getMagnitude ch uChunkSize uPreDelay) (rd.getRMSLevel ch uChunkSize uPreDelay)
        (countOverflows rd.getSample ch uChunkSize uPreDelay))) ∧
      q.fProcessedSeconds = p.fProcessedSeconds ∧ q.actionMessages = p.actionMessages := by
  have hstep : processBufferChunkChannel rd uChunkSize uPreDelay p ch
      = some { p with
          fPeakLevels := some (peaks.set ch (rd.getMagnitude ch uChunkSize uPreDelay))
          fRmsLevels := some (rms.set ch (rd.getRMSLevel ch uChunkSize uPreDelay))
          nOverflows := some (ovs.set ch (countOverflows rd.getSample ch uChunkSize uPreDelay))
          pMeterBallistics := some (mb.receive (.updateChannel ch p.fProcessedSeconds
            (rd.getMagnitude ch uChunkSize uPreDelay) (rd.getRMSLevel ch uChunkSize uPreDelay)
            (countOverflows rd.getSample ch uChunkSize uPreDelay))) } := by
    simp only [processBufferChunkChannel, hrb, hpk, hrms, hov, hmb]
    rw [if_pos hch]
  exact ⟨_, hstep, hrb, rfl, rfl, rfl, rfl, rfl, rfl⟩

theorem processBufferChunkLoop_calls {D : Type} (rd : RingReads) (uChunkSize uPreDelay : Nat)
    (l : List Nat) :
    ∀ (p : TraKmeterAudioProcessor D) (rb : AudioRingBuffer) (peaks rms : List ℚ)
      (ovs : List Int) (mb : MeterBallistics),
      p.pRingBufferInput = some rb → p.fPeakLevels = some peaks → p.fRmsLevels = some rms →
      p.nOverflows = some ovs → p.pMeterBallistics = some mb →
      (∀ ch ∈ l, ch < peaks.length ∧ ch < rms.length ∧ ch < ovs.length) →
      ∃ q, processBufferChunkLoop rd uChunkSize uPreDelay p l = some q ∧
        q.pRingBufferInput = some rb ∧
        q.fProcessedSeconds = p.fProcessedSeconds ∧
        q.actionMessages = p.actionMessages ∧
        q.pMeterBallistics = some { mb with calls := mb.calls ++ l.map (fun (ch : Nat) =>
          BallisticsCall.updateChannel (ch : Int) p.fProcessedSeconds
            (rd.getMagnitude ch uChunkSize uPreDelay) (rd.getRMSLevel ch uChunkSize uPreDelay)
            (countOverflows rd.getSample ch uChunkSize uPreDelay)) } := by
  induction l with
  | nil =>
    intro p rb peaks rms ovs mb hrb _ _ _ hmb _
    exact ⟨p, rfl, hrb, rfl, rfl, by simp [hmb]⟩
  | cons ch rest ih =>
    intro p rb peaks rms ovs mb hrb hpk hrms hov hmb hlen
    have hch := hlen ch (List.mem_cons_self ch rest)
    obtain ⟨p1, hp1, h1rb, h1pk, h1rms, h1ov, h1mb, h1sec, h1msg⟩ :=
      processBufferChunkChannel_ready rd uChunkSize uPreDelay p ch rb peaks rms ovs mb
        hrb hpk hrms hov hmb hch
    obtain ⟨q, hq, hqrb, hqsec, hqmsg, hqmb⟩ := ih p1 rb _ _ _ _ h1rb h1pk h1rms h1ov h1mb
      (by
        intro c hc
        have := hlen c (List.mem_cons_of_mem ch hc)
        simpa [List.length_set] using this)
    refine ⟨q, ?_, hqrb, hqsec.trans h1sec, hqmsg.trans h1msg, ?_⟩
    · simp only [processBufferChunkLoop, hp1]
      exact hq
    · rw [hqmb, h1sec]
      simp [MeterBallistics.receive]

/-- C2: with an editor open (and the objects `prepareToPlay` allocates in
place), one call of `processBufferChunk` succeeds and appends to the calls of
the ballistics object exactly one `updateChannel` per channel
`0 .. nNumInputChannels - 1`, in ascending order, each with the duration
`uChunkSize / sampleRate` and with peak (`getMagnitude`), RMS (`getRMSLevel`)
and overflow count (`countOverflows`) taken over `uChunkSize` samples with
pre-delay `uChunkSize / 2` (rounded down). -/
theorem processBufferChunk_updates_every_channel {D : Type} (h : Host) (rd : RingReads)
    (p : TraKmeterAudioProcessor D) (buffer : AudioSampleBuffer)
    (uChunkSize uBufferPosition uProcessedSamples : Nat)
    (rb : AudioRingBuffer) (peaks rms : List ℚ) (ovs : List Int) (mb : MeterBallistics)
    (heditor : h.getActiveEditor = true)
    (hrb : p.pRingBufferInput = some rb) (hpk : p.fPeakLevels = some peaks)
    (hrms : p.fRmsLevels = some rms) (hov : p.nOverflows = some ovs)
    (hmb : p.pMeterBallistics = some mb)
    (hlen : p.nNumInputChannels.toNat ≤ peaks.length ∧ p.nNumInputChannels.toNat ≤ rms.length
      ∧ p.nNumInputChannels.toNat ≤ ovs.length) :
    ∃ q, processBufferChunk h rd p buffer uChunkSize uBufferPosition uProcessedSamples = some q ∧
      q.pMeterBallistics = some { mb with calls := mb.calls ++
        (List.range p.nNumInputChannels.toNat).map (chunkUpdateCall h rd uChunkSize) } ∧
      q.fProcessedSeconds = (uChunkSize : ℚ) / h.getSampleRate := by
  obtain ⟨q, hq, hqrb, hqsec, _, hqmb⟩ :=
    processBufferChunkLoop_calls rd uChunkSize (uChunkSize / 2)
      (List.range p.nNumInputChannels.toNat)
      { p with fProcessedSeconds := (uChunkSize : ℚ) / h.getSampleRate } rb peaks rms ovs mb
      hrb hpk hrms hov hmb
      (by
        intro ch hc
        have hlt : ch < p.nNumInputChannels.toNat := List.mem_range.mp hc
        omega)
  refine ⟨sendActionMessage q .UM, ?_, ?_, ?_⟩
  · simp only [processBufferChunk, heditor, if_true, hq, sendActionMessage, hqrb,
      Option.isSome_some]
  · simp only [sendActionMessage, hqmb]
    rfl
  · simpa [sendActionMessage] using hqsec

/-- Witness of C2: the documented case of 1024 samples at 44100 Hz on the
prepared two-channel processor. -/
theorem processBufferChunk_updates_every_channel_witness :
    ∃ q, processBufferChunk hostStereo readsMixed procStereo bufferNone 1024 0 0 = some q ∧
      q.pMeterBallistics = some { ballisticsStereo with calls := (ballisticsStereo.calls ++
        List.map (chunkUpdateCall hostStereo readsMixed 1024)
          (List.range procStereo.nNumInputChannels.toNat)) } ∧
      q.fProcessedSeconds = ((1024 : Nat) : ℚ) / hostStereo.getSampleRate :=
  processBufferChunk_updates_every_channel hostStereo readsMixed procStereo bufferNone 1024 0 0
    ringStereo [0, 0] [0, 0] [0, 0] ballisticsStereo rfl rfl rfl rfl rfl rfl
    (by decide)

/-- C10: without an active editor, `processBufferChunk` leaves the processor
as it is, for every chunk size and buffer: the ballistics object receives no
`updateChannel` call, and `fPeakLevels`, `fRmsLevels`, `nOverflows` and
`fProcessedSeconds` keep their values. -/
theorem processBufferChunk_editor_closed {D : Type} (h : Host) (rd : RingReads)
    (p : TraKmeterAudioProcessor D) (buffer : AudioSampleBuffer)
    (uChunkSize uBufferPosition uProcessedSamples : Nat) (rb : AudioRingBuffer)
    (heditor : h.getActiveEditor = false) (hrb : p.pRingBufferInput = some rb) :
    ∃ q, processBufferChunk h rd p buffer uChunkSize uBufferPosition uProcessedSamples = some q ∧
      q.pMeterBallistics = p.pMeterBallistics ∧
      q.fPeakLevels = p.fPeakLevels ∧ q.fRmsLevels = p.fRmsLevels ∧
      q.nOverflows = p.nOverflows ∧ q.fProcessedSeconds = p.fProcessedSeconds ∧
      q.actionMessages = p.actionMessages := by
  refine ⟨p, ?_, rfl, rfl, rfl, rfl, rfl, rfl⟩
  simp [processBufferChunk, heditor, hrb]

/-- Witness of C10: the prepared two-channel processor with the editor closed. -/
theorem processBufferChunk_editor_closed_witness :
    ∃ q, processBufferChunk hostStereoClosed readsMixed procStereo bufferNone 1024 0 0 = some q ∧
      q.pMeterBallistics = procStereo.pMeterBallistics ∧
      q.fPeakLevels = procStereo.fPeakLevels ∧ q.fRmsLevels = procStereo.fRmsLevels ∧
      q.nOverflows = procStereo.nOverflows ∧
      q.fProcessedSeconds = procStereo.fProcessedSeconds ∧
      q.actionMessages = procStereo.actionMessages :=
  processBufferChunk_editor_closed hostStereoClosed readsMixed procStereo bufferNone 1024 0 0
    ringStereo rfl rfl


/-! ## prepareToPlay and the sample counter -/

theorem prepareToPlay_supported {D : Type} (h : Host)
    (TRAKMETER_BUFFER_SIZE JucePlugin_MaxNumInputChannels : Int)
    (p : TraKmeterAudioProcessor D) (sampleRate : ℚ) (samplesPerBlock : Int)
    (hlo : 44100 ≤ sampleRate) (hhi : sampleRate ≤ 192000) :
    let q := prepareToPlay h TRAKMETER_BUFFER_SIZE JucePlugin_MaxNumInputChannels p sampleRate
      samplesPerBlock
    q.bSampleRateIsValid = true ∧ q.nSamplesInBuffer = 0 ∧
    q.nNumInputChannels = (if h.getNumInputChannels < 1 then JucePlugin_MaxNumInputChannels
      else h.getNumInputChannels) ∧
    q.pRingBufferInput = some
      ⟨if h.getNumInputChannels < 1 then JucePlugin_MaxNumInputChannels
        else h.getNumInputChannels,
       toUInt32 (if samplesPerBlock > TRAKMETER_BUFFER_SIZE then samplesPerBlock
        else TRAKMETER_BUFFER_SIZE),
       TRAKMETER_BUFFER_SIZE, TRAKMETER_BUFFER_SIZE, true, []⟩ := by
  have hrate : ¬ (sampleRate < 44100 ∨ sampleRate > 192000) := by
    rintro (hc | hc)
    · exact absurd hlo (not_le.mpr hc)
    · exact absurd hhi (not_le.mpr hc)
  simp [prepareToPlay, if_neg hrate]

/-- C4: for every `samplesPerBlock` of type `int` and every supported sample
rate (44100 .. 192000 Hz), `prepareToPlay` constructs the input ring buffer
with capacity `max(samplesPerBlock, TRAKMETER_BUFFER_SIZE)`, which is at least
the block size and at least the chunk size. -/
theorem prepareToPlay_ring_capacity {D : Type} (h : Host)
    (TRAKMETER_BUFFER_SIZE JucePlugin_MaxNumInputChannels : Int)
    (p : TraKmeterAudioProcessor D) (sampleRate : ℚ) (samplesPerBlock : Int)
    (hlo : 44100 ≤ sampleRate) (hhi : sampleRate ≤ 192000)
    (hB : 0 < TRAKMETER_BUFFER_SIZE) (hB32 : TRAKMETER_BUFFER_SIZE < 2147483648)
    (hs1 : -2147483648 ≤ samplesPerBlock) (hs2 : samplesPerBlock < 2147483648) :
    ∃ rb, (prepareToPlay h TRAKMETER_BUFFER_SIZE JucePlugin_MaxNumInputChannels p sampleRate
          samplesPerBlock).pRingBufferInput = some rb ∧
      (rb.length : Int) = max samplesPerBlock TRAKMETER_BUFFER_SIZE ∧
      samplesPerBlock ≤ rb.length ∧ TRAKMETER_BUFFER_SIZE ≤ rb.length := by
  refine ⟨_, (prepareToPlay_supported h TRAKMETER_BUFFER_SIZE JucePlugin_MaxNumInputChannels p
    sampleRate samplesPerBlock hlo hhi).2.2.2, ?_⟩
  simp only [toUInt32]
  by_cases hgt : samplesPerBlock > TRAKMETER_BUFFER_SIZE
  · rw [if_pos hgt]
    have hmax : max samplesPerBlock TRAKMETER_BUFFER_SIZE = samplesPerBlock := max_eq_left hgt.le
    rw [hmax]
    omega
  · rw [if_neg hgt]
    have hmax : max samplesPerBlock TRAKMETER_BUFFER_SIZE = TRAKMETER_BUFFER_SIZE :=
      max_eq_right (not_lt.mp hgt)
    rw [hmax]
    omega

/-- Witness of C4: 48000 Hz, chunk size 1024 and a block of 4096 samples. -/
theorem prepareToPlay_ring_capacity_witness :
    ∃ rb, (prepareToPlay hostStereo 1024 2 procStereo 48000 4096).pRingBufferInput = some rb ∧
      (rb.length : Int) = max 4096 1024 ∧ (4096 : Int) ≤ rb.length ∧ (1024 : Int) ≤ rb.length :=
  prepareToPlay_ring_capacity hostStereo 1024 2 procStereo 48000 4096
    (by norm_num) (by norm_num) (by decide) (by decide) (by decide) (by decide)


theorem counter_step {c n B : Int} (hc0 : 0 ≤ c) (hcB : c < B) (hn : 0 ≤ n)
    (hsum : n + B ≤ 2147483648) :
    Int.tmod (wrapInt32 (c + n)) B = (c + n) % B := by
  rw [wrapInt32_of_range (by omega) (by omega)]
  exact Int.tmod_eq_emod (by omega) (by omega)

theorem processBlock_main {D : Type} (h : Host) (B : Int) (dither : D → ℚ → ℚ × D)
    (fillBufferChunk : AudioSampleBuffer → AudioSampleBuffer)
    (p : TraKmeterAudioProcessor D) (buffer : AudioSampleBuffer) (rb : AudioRingBuffer)
    (hvalid : p.bSampleRateIsValid = true) (hch : 1 ≤ p.nNumInputChannels)
    (hrb : p.pRingBufferInput = some rb) :
    processBlock h B dither fillBufferChunk p buffer
      = some ({ p with
                audioFilePlayer := p.audioFilePlayer.map (fun fp => fp.receive .fillBufferChunk)
                pDither := (processBlockBuffer h dither fillBufferChunk p buffer).2
                pRingBufferInput := some (rb.addSamples
                  (processBlockBuffer h dither fillBufferChunk p buffer).1 0 buffer.numSamples)
                nSamplesInBuffer := Int.tmod (wrapInt32 (p.nSamplesInBuffer + buffer.numSamples)) B },
              (processBlockBuffer h dither fillBufferChunk p buffer).1) := by
  have hnot : ¬ p.nNumInputChannels < 1 := by omega
  have hv : ¬ p.bSampleRateIsValid = false := by simp [hvalid]
  unfold processBlock
  simp only [if_neg hv, if_neg hnot]
  rw [hrb]

theorem processBlock_counter {D : Type} (h : Host) (B : Int) (dither : D → ℚ → ℚ × D)
    (fillBufferChunk : AudioSampleBuffer → AudioSampleBuffer)
    (p : TraKmeterAudioProcessor D) (buffer : AudioSampleBuffer)
    (hvalid : p.bSampleRateIsValid = true) (hch : 1 ≤ p.nNumInputChannels)
    (hrb : p.pRingBufferInput.isSome = true)
    (hc0 : 0 ≤ p.nSamplesInBuffer) (hcB : p.nSamplesInBuffer < B)
    (hsz : (buffer.numSamples : Int) + B ≤ 2147483648) :
    ∃ r, processBlock h B dither fillBufferChunk p buffer = some r ∧
      r.1.bSampleRateIsValid = true ∧ r.1.nNumInputChannels = p.nNumInputChannels ∧
      r.1.pRingBufferInput.isSome = true ∧
      r.1.nSamplesInBuffer = (p.nSamplesInBuffer + buffer.numSamples) % B := by
  obtain ⟨rb, hrb'⟩ := Option.isSome_iff_exists.mp hrb
  refine ⟨_, processBlock_main h B dither fillBufferChunk p buffer rb hvalid hch hrb',
    hvalid, rfl, rfl, ?_⟩
  exact counter_step hc0 hcB (by omega) hsz

theorem processBlocks_counter {D : Type} (B : Int) (dither : D → ℚ → ℚ × D)
    (fillBufferChunk : AudioSampleBuffer → AudioSampleBuffer) (hB : 0 < B)
    (blocks : List (Host × AudioSampleBuffer)) :
    ∀ (p : TraKmeterAudioProcessor D), p.bSampleRateIsValid = true → 1 ≤ p.nNumInputChannels →
      p.pRingBufferInput.isSome = true → 0 ≤ p.nSamplesInBuffer → p.nSamplesInBuffer < B →
      (∀ b ∈ blocks, ((b.2.numSamples : Nat) : Int) + B ≤ 2147483648) →
      ∃ q, processBlocks B dither fillBufferChunk p blocks = some q ∧
        q.nSamplesInBuffer = (p.nSamplesInBuffer + (totalSamples blocks : Nat)) % B := by
  induction blocks with
  | nil =>
    intro p _ _ _ hc0 hcB _
    refine ⟨p, rfl, ?_⟩
    simp only [totalSamples, Nat.cast_zero, add_zero]
    exact (Int.emod_eq_of_lt hc0 hcB).symm
  | cons b rest ih =>
    intro p hvalid hch hrb hc0 hcB hsz
    obtain ⟨h, buffer⟩ := b
    obtain ⟨r, hr, hrvalid, hrch, hrrb, hrc⟩ :=
      processBlock_counter h B dither fillBufferChunk p buffer hvalid hch hrb hc0 hcB
        (hsz (h, buffer) (List.mem_cons_self _ _))
    obtain ⟨q, hq, hqc⟩ := ih r.1 hrvalid (hrch ▸ hch) hrrb
      (by rw [hrc]; exact Int.emod_nonneg _ (by omega))
      (by rw [hrc]; exact Int.emod_lt_of_pos _ hB)
      (fun b hb => hsz b (List.mem_cons_of_mem _ hb))
    refine ⟨q, ?_, ?_⟩
    · simp only [processBlocks, hr]
      exact hq
    · rw [hqc, hrc, Int.emod_add_emod]
      simp only [totalSamples, Nat.cast_add]
      congr 1
      ring

/-- C5: starting from `prepareToPlay` (supported sample rate, at least one
input channel), any sequence of `processBlock` calls whose block sizes cannot
overflow the `int` counter runs through, and afterwards `nSamplesInBuffer` is
the total number of samples modulo `TRAKMETER_BUFFER_SIZE`. Hence it lies in
`[0, TRAKMETER_BUFFER_SIZE)`, is 0 exactly when the total is a multiple of the
chunk size, and any other split of the same total gives the same value. -/
theorem nSamplesInBuffer_is_total_mod_chunk {D : Type} (h0 : Host)
    (TRAKMETER_BUFFER_SIZE JucePlugin_MaxNumInputChannels : Int)
    (dither : D → ℚ → ℚ × D) (fillBufferChunk : AudioSampleBuffer → AudioSampleBuffer)
    (p0 : TraKmeterAudioProcessor D) (sampleRate : ℚ) (samplesPerBlock : Int)
    (blocks : List (Host × AudioSampleBuffer))
    (hlo : 44100 ≤ sampleRate) (hhi : sampleRate ≤ 192000)
    (hB : 0 < TRAKMETER_BUFFER_SIZE)
    (hch : 1 ≤ h0.getNumInputChannels ∨ 1 ≤ JucePlugin_MaxNumInputChannels)
    (hsz : ∀ b ∈ blocks, ((b.2.numSamples : Nat) : Int) + TRAKMETER_BUFFER_SIZE ≤ 2147483648) :
    ∃ q, processBlocks TRAKMETER_BUFFER_SIZE dither fillBufferChunk
          (prepareToPlay h0 TRAKMETER_BUFFER_SIZE JucePlugin_MaxNumInputChannels p0 sampleRate
            samplesPerBlock) blocks = some q ∧
      q.nSamplesInBuffer = ((totalSamples blocks : Nat) : Int) % TRAKMETER_BUFFER_SIZE ∧
      0 ≤ q.nSamplesInBuffer ∧ q.nSamplesInBuffer < TRAKMETER_BUFFER_SIZE ∧
      (q.nSamplesInBuffer = 0 ↔ TRAKMETER_BUFFER_SIZE ∣ ((totalSamples blocks : Nat) : Int)) ∧
      ∀ blocks2 : List (Host × AudioSampleBuffer),
        (∀ b ∈ blocks2, ((b.2.numSamples : Nat) : Int) + TRAKMETER_BUFFER_SIZE ≤ 2147483648) →
        totalSamples blocks2 = totalSamples blocks →
        ∃ q2, processBlocks TRAKMETER_BUFFER_SIZE dither fillBufferChunk
            (prepareToPlay h0 TRAKMETER_BUFFER_SIZE JucePlugin_MaxNumInputChannels p0 sampleRate
              samplesPerBlock) blocks2 = some q2 ∧
          q2.nSamplesInBuffer = q.nSamplesInBuffer := by
  obtain ⟨hvalid, hzero, hnum, hring⟩ := prepareToPlay_supported h0 TRAKMETER_BUFFER_SIZE
    JucePlugin_MaxNumInputChannels p0 sampleRate samplesPerBlock hlo hhi
  have hch1 : 1 ≤ (prepareToPlay h0 TRAKMETER_BUFFER_SIZE JucePlugin_MaxNumInputChannels p0
      sampleRate samplesPerBlock).nNumInputChannels := by
    rw [hnum]
    split_ifs with hlt
    · rcases hch with hc | hc
      · omega
      · exact hc
    · omega
  have hrun : ∀ bl : List (Host × AudioSampleBuffer),
      (∀ b ∈ bl, ((b.2.numSamples : Nat) : Int) + TRAKMETER_BUFFER_SIZE ≤ 2147483648) →
      ∃ q, processBlocks TRAKMETER_BUFFER_SIZE dither fillBufferChunk
          (prepareToPlay h0 TRAKMETER_BUFFER_SIZE JucePlugin_MaxNumInputChannels p0 sampleRate
            samplesPerBlock) bl = some q ∧
        q.nSamplesInBuffer = ((totalSamples bl : Nat) : Int) % TRAKMETER_BUFFER_SIZE := by
    intro bl hbl
    obtain ⟨q, hq, hqc⟩ := processBlocks_counter TRAKMETER_BUFFER_SIZE dither fillBufferChunk hB bl
      _ hvalid hch1 (by rw [hring]; rfl) (by rw [hzero]) (by rw [hzero]; exact hB) hbl
    exact ⟨q, hq, by rw [hqc, hzero, zero_add]⟩
  obtain ⟨q, hq, hqc⟩ := hrun blocks hsz
  refine ⟨q, hq, hqc, ?_, ?_, ?_, ?_⟩
  · rw [hqc]; exact Int.emod_nonneg _ (by omega)
  · rw [hqc]; exact Int.emod_lt_of_pos _ hB
  · rw [hqc]
    exact ⟨Int.dvd_of_emod_eq_zero, Int.emod_eq_zero_of_dvd⟩
  · intro blocks2 hsz2 htot
    obtain ⟨q2, hq2, hq2c⟩ := hrun blocks2 hsz2
    exact ⟨q2, hq2, by rw [hq2c, hqc, htot]⟩


/-- Witness of C5: chunk size 1024, four blocks of 256 samples after
`prepareToPlay` at 44100 Hz. -/
theorem nSamplesInBuffer_is_total_mod_chunk_witness :
    ∃ q, processBlocks 1024 (ditherModel 24) id
          (prepareToPlay hostStereo 1024 2 procStereo 44100 512) blocks4x256 = some q ∧
      q.nSamplesInBuffer = ((totalSamples blocks4x256 : Nat) : Int) % 1024 ∧
      0 ≤ q.nSamplesInBuffer ∧ q.nSamplesInBuffer < 1024 ∧
      (q.nSamplesInBuffer = 0 ↔ (1024 : Int) ∣ ((totalSamples blocks4x256 : Nat) : Int)) ∧
      ∀ blocks2 : List (Host × AudioSampleBuffer),
        (∀ b ∈ blocks2, ((b.2.numSamples : Nat) : Int) + 1024 ≤ 2147483648) →
        totalSamples blocks2 = totalSamples blocks4x256 →
        ∃ q2, processBlocks 1024 (ditherModel 24) id
            (prepareToPlay hostStereo 1024 2 procStereo 44100 512) blocks2 = some q2 ∧
          q2.nSamplesInBuffer = q.nSamplesInBuffer :=
  nSamplesInBuffer_is_total_mod_chunk hostStereo 1024 2 (ditherModel 24) id procStereo 44100 512
    blocks4x256 (by norm_num) (by norm_num) (by decide) (Or.inl (by decide))
    (by
      intro b hb
      simp only [blocks4x256, List.mem_cons, List.mem_singleton, List.not_mem_nil, or_false,
        or_self] at hb
      subst hb
      decide)


/-! ## Crest factor and resets -/

/-- C6: `setCrestFactor(v)` does not reset history. Afterwards
`getCrestFactor()` is `v`; if `v` differs from the current crest factor, the
existing ballistics object (constructor arguments and calls received so far)
is kept and receives the one call `setCrestFactor(v)`, and so does an active
file player; transient mode, gain and the sample counter are unchanged; and if
`v` is the current crest factor the processor is unchanged altogether. -/
theorem setCrestFactor_keeps_history {D : Type} (p : TraKmeterAudioProcessor D) (v : Int) :
    getCrestFactor (setCrestFactor p v) = v ∧
    (setCrestFactor p v).bTransientMode = p.bTransientMode ∧
    (setCrestFactor p v).nDecibels = p.nDecibels ∧
    (setCrestFactor p v).dGain = p.dGain ∧
    (setCrestFactor p v).nSamplesInBuffer = p.nSamplesInBuffer ∧
    (if v = p.nCrestFactor then
      setCrestFactor p v = p
    else
      (setCrestFactor p v).pMeterBallistics = p.pMeterBallistics.map
          (fun mb => { mb with calls := mb.calls ++ [BallisticsCall.setCrestFactor v] }) ∧
        (setCrestFactor p v).audioFilePlayer = p.audioFilePlayer.map
          (fun fp => { fp with calls := fp.calls ++ [FilePlayerCall.setCrestFactor v] })) := by
  by_cases hv : v = p.nCrestFactor
  · have hsame : setCrestFactor p v = p := by
      unfold setCrestFactor
      rw [if_neg (by simpa using hv)]
    rw [if_pos hv, hsame]
    exact ⟨hv.symm, rfl, rfl, rfl, rfl, rfl⟩
  · have hchg : setCrestFactor p v = { p with
        nCrestFactor := v
        pMeterBallistics := p.pMeterBallistics.map (fun mb => mb.receive (.setCrestFactor v))
        audioFilePlayer := p.audioFilePlayer.map (fun fp => fp.receive (.setCrestFactor v)) } := by
      unfold setCrestFactor
      rw [if_pos hv]
    rw [if_neg hv, hchg]
    exact ⟨rfl, rfl, rfl, rfl, rfl, rfl, rfl⟩

/-- C7 (as stated), refuted: `stopValidation` on a processor with a running
validation deletes the file player and leaves the ballistics object with the
calls it had; no `reset` is invoked. -/
theorem stopValidation_does_not_reset :
    procValidating.pMeterBallistics.map (fun mb => mb.calls) = some [BallisticsCall.reset] ∧
    (stopValidation procValidating).pMeterBallistics.map (fun mb => mb.calls)
      = some [BallisticsCall.reset] ∧
    (stopValidation procValidating).audioFilePlayer = none ∧
    (stopValidation procValidating).actionMessages = [ActionMessage.Vplus, ActionMessage.Vminus] :=
  ⟨rfl, rfl, rfl, rfl⟩

/-- C7 (amended): `reset()` is invoked on the existing ballistics object when
validation starts (`startValidation`) and when the editor is (re)opened
(`createEditor`); `stopValidation` deletes the file player and sends "V-"
without touching the ballistics object. -/
theorem reset_on_startValidation_and_createEditor {D : Type} (h : Host)
    (JucePlugin_MaxNumInputChannels : Int) (p : TraKmeterAudioProcessor D) (fileAudio : String)
    (nSelectedChannel : Int) (bReportCSV bAverageMeterLevel bPeakMeterLevel : Bool)
    (mb : MeterBallistics) (hmb : p.pMeterBallistics = some mb) :
    (∃ q, startValidation h p fileAudio nSelectedChannel bReportCSV bAverageMeterLevel
          bPeakMeterLevel = some q ∧
        q.pMeterBallistics = some { mb with calls := mb.calls ++ [BallisticsCall.reset] }) ∧
    (createEditor JucePlugin_MaxNumInputChannels p).1.pMeterBallistics
      = some { mb with calls := mb.calls ++ [BallisticsCall.reset] } ∧
    (stopValidation p).pMeterBallistics = some mb ∧
    (stopValidation p).audioFilePlayer = none ∧
    (stopValidation p).actionMessages = p.actionMessages ++ [ActionMessage.Vminus] := by
  refine ⟨?_, ?_, hmb, rfl, rfl⟩
  · have hstart : startValidation h p fileAudio nSelectedChannel bReportCSV bAverageMeterLevel
        bPeakMeterLevel = some (sendActionMessage
          { p with
            audioFilePlayer := some ((⟨fileAudio,
              Int.tdiv h.getSampleRate.num h.getSampleRate.den, p.nCrestFactor, []⟩ :
                AudioFilePlayer).receive
              (.setReporters nSelectedChannel bReportCSV bAverageMeterLevel bPeakMeterLevel))
            pMeterBallistics := some (mb.receive .reset) } .Vplus) := by
      simp only [startValidation, hmb]
    exact ⟨_, hstart, rfl⟩
  · unfold createEditor
    split_ifs <;> simp [hmb, MeterBallistics.receive]

/-- Witness of C7 (amended): the prepared two-channel processor. -/
theorem reset_on_startValidation_and_createEditor_witness :
    (∃ q, startValidation hostStereo procStereo "validation.wav" 0 false true true = some q ∧
        q.pMeterBallistics
          = some { ballisticsStereo with calls := ballisticsStereo.calls ++ [BallisticsCall.reset] }) ∧
    (createEditor 2 procStereo).1.pMeterBallistics
      = some { ballisticsStereo with calls := ballisticsStereo.calls ++ [BallisticsCall.reset] } ∧
    (stopValidation procStereo).pMeterBallistics = some ballisticsStereo ∧
    (stopValidation procStereo).audioFilePlayer = none ∧
    (stopValidation procStereo).actionMessages
      = procStereo.actionMessages ++ [ActionMessage.Vminus] :=
  reset_on_startValidation_and_createEditor hostStereo 2 procStereo "validation.wav" 0 false true
    true ballisticsStereo rfl


/-! ## Lemmas: clearing and the gain stage -/

theorem clearChannel_take (n k : Nat) (chans : List (List ℚ)) :
    (clearChannel n chans).take k = clearChannel n (chans.take k) := by
  induction chans generalizing n k with
  | nil => simp [clearChannel]
  | cons ch rest ih =>
    cases k with
    | zero => simp [clearChannel]
    | succ k =>
      cases n with
      | zero => simp [clearChannel]
      | succ n => simp [clearChannel, ih]

theorem clearChannel_getElem? (n i : Nat) (chans : List (List ℚ)) :
    (clearChannel n chans)[i]? =
      if i = n then chans[i]?.map (fun ch => List.replicate ch.length 0) else chans[i]? := by
  induction chans generalizing n i with
  | nil => simp [clearChannel]
  | cons ch rest ih =>
    cases n with
    | zero =>
      cases i with
      | zero => simp [clearChannel]
      | succ i => simp [clearChannel]
    | succ n =>
      cases i with
      | zero => simp [clearChannel]
      | succ i => simp [clearChannel, ih]

theorem clearLoop_take (l : List Nat) (k : Nat) (chans : List (List ℚ)) :
    (l.foldl (fun c n => clearChannel n c) chans).take k
      = l.foldl (fun c n => clearChannel n c) (chans.take k) := by
  induction l generalizing chans with
  | nil => rfl
  | cons n rest ih =>
    simp only [List.foldl_cons]
    rw [ih, clearChannel_take]

theorem clearLoop_getElem? (l : List Nat) (i : Nat) (chans : List (List ℚ)) :
    (l.foldl (fun c n => clearChannel n c) chans)[i]? =
      if i ∈ l then chans[i]?.map (fun ch => List.replicate ch.length 0) else chans[i]? := by
  induction l generalizing chans with
  | nil => simp
  | cons n rest ih =>
    simp only [List.foldl_cons, List.mem_cons]
    rw [ih, clearChannel_getElem?]
    by_cases hin : i = n
    · subst hin
      by_cases hr : i ∈ rest
      · simp only [hr, if_true, or_true]
        cases chans[i]? <;> simp
      · simp [hr]
    · simp [hin]

theorem clearChannels_getElem? (buffer : AudioSampleBuffer) (first last : Int) (i : Nat)
    (hfirst : 0 ≤ first) :
    (clearChannels buffer first last).channels[i]? =
      if first ≤ (i : Int) ∧ (i : Int) < last then
        buffer.channels[i]?.map (fun ch => List.replicate ch.length 0)
      else buffer.channels[i]? := by
  unfold clearChannels
  simp only
  rw [clearLoop_getElem?]
  have hmem : i ∈ List.range' first.toNat (last.toNat - first.toNat)
      ↔ (first ≤ (i : Int) ∧ (i : Int) < last) := by
    rw [List.mem_range'_1]
    omega
  by_cases hc : first ≤ (i : Int) ∧ (i : Int) < last
  · rw [if_pos hc, if_pos (hmem.mpr hc)]
  · rw [if_neg hc, if_neg (fun hm => hc (hmem.mp hm))]

theorem clearChannels_take (buffer buffer2 : AudioSampleBuffer) (first last : Int) (k : Nat)
    (hagree : buffer.channels.take k = buffer2.channels.take k) :
    (clearChannels buffer first last).channels.take k
      = (clearChannels buffer2 first last).channels.take k := by
  unfold clearChannels
  simp only
  rw [clearLoop_take, clearLoop_take, hagree]

theorem ditherChannel_eq_ditherSeq {D : Type} (dither : D → ℚ → ℚ × D) (dGain : ℚ)
    (xs : List ℚ) : ∀ st : D,
    ditherChannel dither dGain st xs = ditherSeq dither st (xs.map (fun x => x * dGain)) := by
  induction xs with
  | nil => intro st; rfl
  | cons x rest ih =>
    intro st
    simp only [ditherChannel, List.map_cons, ditherSeq, ih]

theorem ditherSeq_append {D : Type} (dither : D → ℚ → ℚ × D) (xs ys : List ℚ) : ∀ st : D,
    ditherSeq dither st (xs ++ ys)
      = ((ditherSeq dither st xs).1 ++ (ditherSeq dither (ditherSeq dither st xs).2 ys).1,
         (ditherSeq dither (ditherSeq dither st xs).2 ys).2) := by
  induction xs with
  | nil => intro st; rfl
  | cons x rest ih =>
    intro st
    have hcons : (x :: rest) ++ ys = x :: (rest ++ ys) := rfl
    rw [hcons]
    simp only [ditherSeq, ih, List.cons_append]

theorem ditherChannel_length {D : Type} (dither : D → ℚ → ℚ × D) (dGain : ℚ)
    (xs : List ℚ) : ∀ st : D, (ditherChannel dither dGain st xs).1.length = xs.length := by
  induction xs with
  | nil => intro st; rfl
  | cons x rest ih =>
    intro st
    simp only [ditherChannel, List.length_cons, ih]

theorem ditherBuffer_lengths {D : Type} (dither : D → ℚ → ℚ × D) (dGain : ℚ)
    (chans : List (List ℚ)) : ∀ st : D,
    (ditherBuffer dither dGain st chans).1.map List.length = chans.map List.length := by
  induction chans with
  | nil => intro st; rfl
  | cons ch rest ih =>
    intro st
    simp only [ditherBuffer, List.map_cons, ih, ditherChannel_length]

theorem ditherBuffer_flatten {D : Type} (dither : D → ℚ → ℚ × D) (dGain : ℚ)
    (chans : List (List ℚ)) : ∀ st : D,
    ((ditherBuffer dither dGain st chans).1.flatten, (ditherBuffer dither dGain st chans).2)
      = ditherSeq dither st (chans.flatten.map (fun x => x * dGain)) := by
  induction chans with
  | nil => intro st; rfl
  | cons ch rest ih =>
    intro st
    simp only [ditherBuffer, List.flatten_cons, List.map_append, ditherSeq_append,
      ← ditherChannel_eq_ditherSeq, ← ih]

theorem ditherBuffer_take {D : Type} (dither : D → ℚ → ℚ × D) (dGain : ℚ)
    (chans : List (List ℚ)) : ∀ (st : D) (k : Nat),
    (ditherBuffer dither dGain st chans).1.take k
      = (ditherBuffer dither dGain st (chans.take k)).1 := by
  induction chans with
  | nil => intro st k; simp [ditherBuffer]
  | cons ch rest ih =>
    intro st k
    cases k with
    | zero => simp [ditherBuffer]
    | succ k => simp only [ditherBuffer, List.take_succ_cons, ih]


/-! ## processBlock: what reaches the ring buffer -/

/-- C3 (as stated), refuted: with mix mode off, one input channel and two
output channels, the block handed to the ring buffer is not the block
received: the second channel, which held 1/2, has been cleared. -/
theorem processBlock_clears_before_handing_over :
    hostMonoIn.selMixMode = false ∧ procMono.audioFilePlayer = none ∧
    procMono.bSampleRateIsValid = true ∧
    bufferLeftOver.channels = [[1 / 2], [1 / 2]] ∧
    (processBlock hostMonoIn 1024 (ditherModel 24) id procMono bufferLeftOver).map
        (fun r => r.1.pRingBufferInput.map (fun rb => rb.added.map (fun c => c.buffer.channels)))
      = some (some [[[1 / 2], [0]]]) :=
  ⟨rfl, rfl, rfl, rfl, rfl⟩


/-- C3 (amended): in `processBlock` (valid sample rate, at least one input
channel, no file player) the output channels without input (index from
`nNumInputChannels` up to the number of output channels) are cleared first.
The buffer handed to the ring buffer is then: if mix mode is on and
`nDecibels` is non-zero, that buffer with every sample `x` of every channel
replaced by `dither(x * dGain)`, the one ditherer being run through the
samples channel after channel; otherwise that buffer as it is, and the
ditherer is not invoked (its state is the one before the call). -/
theorem processBlock_hands_gain_stage_buffer {D : Type} (h : Host) (B : Int)
    (dither : D → ℚ → ℚ × D) (fillBufferChunk : AudioSampleBuffer → AudioSampleBuffer)
    (p : TraKmeterAudioProcessor D) (buffer : AudioSampleBuffer) (rb : AudioRingBuffer)
    (hvalid : p.bSampleRateIsValid = true) (hch : 1 ≤ p.nNumInputChannels)
    (hplayer : p.audioFilePlayer = none) (hrb : p.pRingBufferInput = some rb) :
    ∃ q out, processBlock h B dither fillBufferChunk p buffer = some (q, out) ∧
      q.pRingBufferInput = some (rb.addSamples out 0 buffer.numSamples) ∧
      (∀ i : Nat, (clearChannels buffer p.nNumInputChannels h.getNumOutputChannels).channels[i]? =
        if p.nNumInputChannels ≤ (i : Int) ∧ (i : Int) < h.getNumOutputChannels then
          buffer.channels[i]?.map (fun ch => List.replicate ch.length 0)
        else buffer.channels[i]?) ∧
      (if h.selMixMode = true ∧ p.nDecibels ≠ 0 then
        out.numSamples = buffer.numSamples ∧
        out.channels.map List.length
          = (clearChannels buffer p.nNumInputChannels h.getNumOutputChannels).channels.map
              List.length ∧
        (out.channels.flatten, q.pDither) = ditherSeq dither p.pDither
          ((clearChannels buffer p.nNumInputChannels h.getNumOutputChannels).channels.flatten.map
            (fun x => x * p.dGain))
      else
        out = clearChannels buffer p.nNumInputChannels h.getNumOutputChannels ∧
        q.pDither = p.pDither) := by
  refine ⟨_, _, processBlock_main h B dither fillBufferChunk p buffer rb hvalid hch hrb, rfl,
    fun i => clearChannels_getElem? buffer _ _ i (by omega), ?_⟩
  by_cases hmix : h.selMixMode = true ∧ p.nDecibels ≠ 0
  · rw [if_pos hmix]
    have hstage : processBlockBuffer h dither fillBufferChunk p buffer
        = ({ clearChannels buffer p.nNumInputChannels h.getNumOutputChannels with
              channels := (ditherBuffer dither p.dGain p.pDither
                (clearChannels buffer p.nNumInputChannels h.getNumOutputChannels).channels).1 },
            (ditherBuffer dither p.dGain p.pDither
                (clearChannels buffer p.nNumInputChannels h.getNumOutputChannels).channels).2) := by
      simp only [processBlockBuffer, hplayer, Option.isSome_none, Bool.false_eq_true, if_false]
      rw [if_pos hmix]
    rw [hstage]
    exact ⟨rfl, ditherBuffer_lengths _ _ _ _, ditherBuffer_flatten _ _ _ _⟩
  · rw [if_neg hmix]
    have hstage : processBlockBuffer h dither fillBufferChunk p buffer
        = (clearChannels buffer p.nNumInputChannels h.getNumOutputChannels, p.pDither) := by
      simp only [processBlockBuffer, hplayer, Option.isSome_none, Bool.false_eq_true, if_false]
      rw [if_neg hmix]
    rw [hstage]
    exact ⟨rfl, rfl⟩

/-- Witness of C3 (amended): the two-channel processor with a gain of +20 dB
in mix mode, on a block of one sample. -/
theorem processBlock_hands_gain_stage_buffer_witness :
    ∃ q out, processBlock hostMix 1024 (ditherModel 24) id procGain bufferLoud = some (q, out) ∧
      q.pRingBufferInput = some (ringStereo.addSamples out 0 bufferLoud.numSamples) ∧
      (∀ i : Nat, (clearChannels bufferLoud procGain.nNumInputChannels
          hostMix.getNumOutputChannels).channels[i]? =
        if procGain.nNumInputChannels ≤ (i : Int) ∧ (i : Int) < hostMix.getNumOutputChannels then
          bufferLoud.channels[i]?.map (fun ch => List.replicate ch.length 0)
        else bufferLoud.channels[i]?) ∧
      (if hostMix.selMixMode = true ∧ procGain.nDecibels ≠ 0 then
        out.numSamples = bufferLoud.numSamples ∧
        out.channels.map List.length
          = (clearChannels bufferLoud procGain.nNumInputChannels
              hostMix.getNumOutputChannels).channels.map List.length ∧
        (out.channels.flatten, q.pDither) = ditherSeq (ditherModel 24) procGain.pDither
          ((clearChannels bufferLoud procGain.nNumInputChannels
            hostMix.getNumOutputChannels).channels.flatten.map (fun x => x * procGain.dGain))
      else
        out = clearChannels bufferLoud procGain.nNumInputChannels hostMix.getNumOutputChannels ∧
        q.pDither = procGain.pDither) :=
  processBlock_hands_gain_stage_buffer hostMix 1024 (ditherModel 24) id procGain bufferLoud
    ringStereo rfl (by decide) rfl rfl

/-! ## The ditherer is shared by the channels -/

theorem ditherModel_quiet_alone : ditherModel 24 0 (1 / 268435456 * 10) = (0, 10 / 268435456) := by
  have hfloor : (⌊((1 : ℚ) / 268435456 * 10 + 0) * 2 ^ (24 - 1) + 1 / 2⌋ : Int) = 0 := by
    rw [Int.floor_eq_iff]
    norm_num
  simp only [ditherModel, hfloor]
  norm_num

theorem ditherModel_loud : ditherModel 24 0 (1 / 67108864 * 10) = (1 / 8388608, 1 / 33554432) := by
  have hfloor : (⌊((1 : ℚ) / 67108864 * 10 + 0) * 2 ^ (24 - 1) + 1 / 2⌋ : Int) = 1 := by
    rw [Int.floor_eq_iff]
    norm_num
  simp only [ditherModel, hfloor]
  norm_num

theorem ditherModel_quiet_after_loud :
    ditherModel 24 (1 / 33554432) (1 / 268435456 * 10) = (1 / 8388608, -7 / 134217728) := by
  have hfloor :
      (⌊((1 : ℚ) / 268435456 * 10 + 1 / 33554432) * 2 ^ (24 - 1) + 1 / 2⌋ : Int) = 1 := by
    rw [Int.floor_eq_iff]
    norm_num
  simp only [ditherModel, hfloor]
  norm_num

theorem ditherModel_silence : ditherModel 24 0 (0 * 10) = (0, 0) := by
  have hfloor : (⌊((0 : ℚ) * 10 + 0) * 2 ^ (24 - 1) + 1 / 2⌋ : Int) = 0 := by
    rw [Int.floor_eq_iff]
    norm_num
  simp only [ditherModel, hfloor]
  norm_num


theorem processBlockBuffer_quiet :
    (processBlockBuffer hostMix (ditherModel 24) id procGain bufferQuiet).1.channels
      = [[0], [0]] := by
  have hclear : clearChannels bufferQuiet procGain.nNumInputChannels hostMix.getNumOutputChannels
      = bufferQuiet := rfl
  have hmix : hostMix.selMixMode = true ∧ procGain.nDecibels ≠ 0 := by decide
  have hplayer : procGain.audioFilePlayer.isSome = false := rfl
  have hgain : procGain.dGain = 10 := rfl
  have hst : procGain.pDither = 0 := rfl
  have hchans : bufferQuiet.channels = [[0], [1 / 268435456]] := rfl
  simp only [processBlockBuffer, hclear, if_pos hmix, hplayer, Bool.false_eq_true, if_false,
    hgain, hst, hchans, ditherBuffer, ditherChannel, ditherModel_silence,
    ditherModel_quiet_alone]

theorem processBlockBuffer_loud :
    (processBlockBuffer hostMix (ditherModel 24) id procGain bufferLoud).1.channels
      = [[1 / 8388608], [1 / 8388608]] := by
  have hclear : clearChannels bufferLoud procGain.nNumInputChannels hostMix.getNumOutputChannels
      = bufferLoud := rfl
  have hmix : hostMix.selMixMode = true ∧ procGain.nDecibels ≠ 0 := by decide
  have hplayer : procGain.audioFilePlayer.isSome = false := rfl
  have hgain : procGain.dGain = 10 := rfl
  have hst : procGain.pDither = 0 := rfl
  have hchans : bufferLoud.channels = [[1 / 67108864], [1 / 268435456]] := rfl
  simp only [processBlockBuffer, hclear, if_pos hmix, hplayer, Bool.false_eq_true, if_false,
    hgain, hst, hchans, ditherBuffer, ditherChannel, ditherModel_loud,
    ditherModel_quiet_after_loud]

/-- C8 (as stated), refuted: two runs of `processBlock` (mix mode on, gain
+20 dB) start from the same processor, hence the same ditherer state, and get
the same sample 2^-28 on channel 1; they differ on channel 0 only (silence
against 2^-26). The sample written to channel 1 is 0 in the first run and 2^-23
in the second: the error left by channel 0 in the one ditherer reaches
channel 1. -/
theorem dither_state_shared_between_channels :
    bufferQuiet.channels[1]? = bufferLoud.channels[1]? ∧
    (processBlock hostMix 1024 (ditherModel 24) id procGain bufferQuiet).map
        (fun r => r.2.channels[1]?) = some (some [0]) ∧
    (processBlock hostMix 1024 (ditherModel 24) id procGain bufferLoud).map
        (fun r => r.2.channels[1]?) = some (some [1 / 8388608]) := by
  refine ⟨rfl, ?_, ?_⟩
  · rw [processBlock_main hostMix 1024 (ditherModel 24) id procGain bufferQuiet ringStereo rfl
      (by decide) rfl]
    simp only [Option.map_some', processBlockBuffer_quiet]
    rfl
  · rw [processBlock_main hostMix 1024 (ditherModel 24) id procGain bufferLoud ringStereo rfl
      (by decide) rfl]
    simp only [Option.map_some', processBlockBuffer_loud]
    rfl

/-- C8 (amended): there is one ditherer for all channels, run through the
channels in ascending order. In `processBlock` (valid sample rate, at least
one input channel, no file player) the output written for channel `c` is a
function of the ditherer state at the start of the call and of the samples of
the channels `0 .. c`: two runs from the same processor whose blocks agree on
the channels up to `c` write the same output to the channels up to `c`, and to
channel `c` in particular. For channel 0 these are its own samples only. -/
theorem processBlock_output_depends_on_lower_channels {D : Type} (h : Host) (B : Int)
    (dither : D → ℚ → ℚ × D) (fillBufferChunk : AudioSampleBuffer → AudioSampleBuffer)
    (p : TraKmeterAudioProcessor D) (buffer1 buffer2 : AudioSampleBuffer) (c : Nat)
    (rb : AudioRingBuffer)
    (hvalid : p.bSampleRateIsValid = true) (hch : 1 ≤ p.nNumInputChannels)
    (hplayer : p.audioFilePlayer = none) (hrb : p.pRingBufferInput = some rb)
    (hagree : buffer1.channels.take (c + 1) = buffer2.channels.take (c + 1)) :
    ∃ r1 r2, processBlock h B dither fillBufferChunk p buffer1 = some r1 ∧
      processBlock h B dither fillBufferChunk p buffer2 = some r2 ∧
      r1.2.channels.take (c + 1) = r2.2.channels.take (c + 1) ∧
      r1.2.channels[c]? = r2.2.channels[c]? := by
  have hcl := clearChannels_take buffer1 buffer2 p.nNumInputChannels h.getNumOutputChannels
    (c + 1) hagree
  have htake : (processBlockBuffer h dither fillBufferChunk p buffer1).1.channels.take (c + 1)
      = (processBlockBuffer h dither fillBufferChunk p buffer2).1.channels.take (c + 1) := by
    by_cases hmix : h.selMixMode = true ∧ p.nDecibels ≠ 0
    · simp only [processBlockBuffer, hplayer, Option.isSome_none, Bool.false_eq_true, if_false,
        if_pos hmix]
      rw [ditherBuffer_take, ditherBuffer_take, hcl]
    · simp only [processBlockBuffer, hplayer, Option.isSome_none, Bool.false_eq_true, if_false,
        if_neg hmix]
      exact hcl
  refine ⟨_, _, processBlock_main h B dither fillBufferChunk p buffer1 rb hvalid hch hrb,
    processBlock_main h B dither fillBufferChunk p buffer2 rb hvalid hch hrb, htake, ?_⟩
  have hget : ∀ l : List (List ℚ), l[c]? = (l.take (c + 1))[c]? := by
    intro l
    rw [List.getElem?_take]
    simp
  show (processBlockBuffer h dither fillBufferChunk p buffer1).1.channels[c]?
    = (processBlockBuffer h dither fillBufferChunk p buffer2).1.channels[c]?
  rw [hget, hget (processBlockBuffer h dither fillBufferChunk p buffer2).1.channels, htake]

/-- Witness of C8 (amended): two blocks that agree on channel 0 and differ on
channel 1, for `c = 0`. -/
theorem processBlock_output_depends_on_lower_channels_witness :
    ∃ r1 r2, processBlock hostMix 1024 (ditherModel 24) id procGain bufferLoud = some r1 ∧
      processBlock hostMix 1024 (ditherModel 24) id procGain bufferLoudOther = some r2 ∧
      r1.2.channels.take (0 + 1) = r2.2.channels.take (0 + 1) ∧
      r1.2.channels[0]? = r2.2.channels[0]? :=
  processBlock_output_depends_on_lower_channels hostMix 1024 (ditherModel 24) id procGain
    bufferLoud bufferLoudOther 0 ringStereo rfl (by decide) rfl rfl rfl


/-! ## Averager -/

theorem averagerInv_create (N : Nat) (init : ℚ) (hN : 1 ≤ N) :
    AveragerInv N init [] (Averager.create N init) := by
  refine ⟨rfl, rfl, by simp [Averager.create], by simp [Averager.create], ?_, ?_, ?_, ?_⟩
  · simp [Averager.create]; omega
  · intro i hi; simp at hi
  · intro j _ hj
    simp [Averager.create, List.getElem?_replicate, hj]
  · have : ¬ N ≤ 0 := by omega
    simp [Averager.create, this]

theorem mod_ne_of_close {i len N : Nat} (hlt : i < len) (hclose : len < i + N) :
    i % N ≠ len % N := by
  intro heq
  have hdvd : N ∣ len - i := (Nat.modEq_iff_dvd' hlt.le).mp heq
  have hpos : 0 < len - i := by omega
  have := Nat.le_of_dvd hpos hdvd
  omega

theorem next_index (len N : Nat) (hN : 1 ≤ N) :
    (if len % N + 1 ≥ N then 0 else len % N + 1) = (len + 1) % N := by
  have hlt : len % N < N := Nat.mod_lt _ (by omega)
  rw [Nat.add_mod]
  by_cases h1 : N = 1
  · subst h1; simp [Nat.mod_one]
  · have h1N : 1 % N = 1 := Nat.mod_eq_of_lt (by omega)
    rw [h1N]
    by_cases hge : len % N + 1 ≥ N
    · rw [if_pos hge]
      have : len % N + 1 = N := by omega
      rw [this, Nat.mod_self]
    · rw [if_neg hge]
      exact (Nat.mod_eq_of_lt (by omega)).symm

theorem averagerInv_addSample (N : Nat) (init : ℚ) (hN : 1 ≤ N) (xs : List ℚ) (a : Averager)
    (x : ℚ) (hinv : AveragerInv N init xs a) :
    AveragerInv N init (xs ++ [x]) (a.addSample x) := by
  obtain ⟨hn, hf, hlen, hcur, hval, hA, hB, hS⟩ := hinv
  have hcurlt : xs.length % N < N := Nat.mod_lt _ (by omega)
  have hmodle : xs.length % N ≤ xs.length := Nat.mod_le _ _
  refine ⟨hn, hf, by simp [Averager.addSample, hlen], ?_, ?_, ?_, ?_, ?_⟩
  · simp only [Averager.addSample, hn, hcur, List.length_append, List.length_singleton]
    exact next_index xs.length N hN
  · simp only [Averager.addSample, hn, hcur, hval, List.length_append, List.length_singleton]
    by_cases hge : xs.length % N + 1 ≥ N
    · rw [if_pos hge]
      have : N ≤ xs.length + 1 := by omega
      simp [this]
    · rw [if_neg hge]
      have hiff : N ≤ xs.length ↔ N ≤ xs.length + 1 := by
        constructor
        · intro h; omega
        · intro h
          by_contra hcon
          have hl : xs.length < N := by omega
          rw [Nat.mod_eq_of_lt hl] at hge
          omega
      simp [hiff]
  · intro i hi hclose
    simp only [List.length_append, List.length_singleton] at hi hclose
    simp only [Averager.addSample, hcur]
    by_cases hil : i = xs.length
    · subst hil
      rw [List.getElem?_set_self (by rw [hlen]; exact hcurlt)]
      simp
    · have hi' : i < xs.length := by omega
      rw [List.getElem?_set_ne (fun h => mod_ne_of_close hi' (by omega) h.symm)]
      rw [hA i hi' (by omega), List.getElem?_append_left hi']
  · intro j hj hjN
    simp only [List.length_append, List.length_singleton] at hj
    simp only [Averager.addSample, hcur]
    have hl : xs.length < N := by omega
    rw [Nat.mod_eq_of_lt hl, List.getElem?_set_ne (by omega)]
    exact hB j (by omega) hjN
  · simp only [Averager.addSample, hcur, List.length_append, List.length_singleton,
      List.sum_append, List.sum_singleton, List.getD_eq_getElem?_getD]
    by_cases hfull : N ≤ xs.length
    · have hfull' : N ≤ xs.length + 1 := by omega
      rw [if_pos hfull'] 
      rw [hS, if_pos hfull]
      have hidx : xs.length - N < xs.length := by omega
      have hslot : a.pSamples[xs.length % N]? = xs[xs.length - N]? := by
        have := hA (xs.length - N) hidx (by omega)
        rwa [← Nat.mod_eq_sub_mod hfull] at this
      rw [hslot, List.getElem?_eq_getElem hidx, Option.getD_some]
      have hdrop : List.drop (xs.length + 1 - N) (xs ++ [x])
          = List.drop (xs.length - N + 1) xs ++ [x] := by
        have : xs.length + 1 - N = xs.length - N + 1 := by omega
        rw [this, List.drop_append_of_le_length (by omega)]
      rw [hdrop, List.drop_eq_getElem_cons hidx]
      simp only [List.sum_cons, List.sum_append, List.sum_singleton, List.sum_nil]
      ring
    · have hl : xs.length < N := by omega
      rw [hS, if_neg hfull, Nat.mod_eq_of_lt hl, hB xs.length le_rfl hl, Option.getD_some]
      by_cases hfull' : N ≤ xs.length + 1
      · rw [if_pos hfull']
        have hNeq : N = xs.length + 1 := by omega
        have h0 : xs.length + 1 - N = 0 := by omega
        have h1 : N - xs.length = 1 := by omega
        rw [h0, h1]
        simp
      · rw [if_neg hfull']
        have hsub : ((N - xs.length : Nat) : ℚ) = ((N - (xs.length + 1) : Nat) : ℚ) + 1 := by
          have : N - xs.length = (N - (xs.length + 1)) + 1 := by omega
          rw [this]; push_cast; ring
        rw [hsub]
        ring

theorem averagerInv_addSamples (N : Nat) (init : ℚ) (hN : 1 ≤ N) (ys : List ℚ) :
    ∀ (xs : List ℚ) (a : Averager), AveragerInv N init xs a →
      AveragerInv N init (xs ++ ys) (a.addSamples ys) := by
  induction ys with
  | nil => intro xs a h; simpa [Averager.addSamples] using h
  | cons y rest ih =>
    intro xs a h
    have := ih (xs ++ [y]) (a.addSample y) (averagerInv_addSample N init hN xs a y h)
    simpa [Averager.addSamples] using this


/-- C9: for an `Averager` of capacity `N >= 1` and any initial value,
`isValid()` is false after fewer than `N` calls of `addSample`; after `N` calls
and after any further calls `isValid()` is true and
`getSimpleMovingAverage()` is the arithmetic mean of the last `N` samples
added, their sum divided by `N`. -/
theorem averager_mean_of_last_samples (N : Nat) (initial_value : ℚ) (samples : List ℚ)
    (hN : 1 ≤ N) :
    if samples.length < N then
      ((Averager.create N initial_value).addSamples samples).isValid = false
    else
      ((Averager.create N initial_value).addSamples samples).isValid = true ∧
      (samples.drop (samples.length - N)).length = N ∧
      ((Averager.create N initial_value).addSamples samples).getSimpleMovingAverage
        = (samples.drop (samples.length - N)).sum / N := by
  have hinv := averagerInv_addSamples N initial_value hN samples []
    (Averager.create N initial_value) (averagerInv_create N initial_value hN)
  rw [List.nil_append] at hinv
  obtain ⟨_, hf, _, _, hval, _, _, hS⟩ := hinv
  by_cases hlt : samples.length < N
  · rw [if_pos hlt]
    have hnot : ¬ N ≤ samples.length := by omega
    simp [Averager.isValid, hval, hnot]
  · rw [if_neg hlt]
    have hfull : N ≤ samples.length := by omega
    refine ⟨by simp [Averager.isValid, hval, hfull], ?_, ?_⟩
    · rw [List.length_drop]
      omega
    · simp only [Averager.getSimpleMovingAverage, hf, hS, if_pos hfull]

/-- Witness of C9: capacity 3, initial value 5, samples 1, 2, 3, 4. -/
theorem averager_mean_of_last_samples_witness :
    if [(1 : ℚ), 2, 3, 4].length < 3 then
      ((Averager.create 3 5).addSamples [1, 2, 3, 4]).isValid = false
    else
      ((Averager.create 3 5).addSamples [1, 2, 3, 4]).isValid = true ∧
      ([(1 : ℚ), 2, 3, 4].drop ([(1 : ℚ), 2, 3, 4].length - 3)).length = 3 ∧
      ((Averager.create 3 5).addSamples [1, 2, 3, 4]).getSimpleMovingAverage
        = ([(1 : ℚ), 2, 3, 4].drop ([(1 : ℚ), 2, 3, 4].length - 3)).sum / (3 : Nat) :=
  averager_mean_of_last_samples 3 5 [1, 2, 3, 4] (by decide)


/-! ## Output channels without input -/

theorem processBlock_bypassed_leaves_cleared {D : Type} (h : Host) (B : Int)
    (dither : D → ℚ → ℚ × D) (fillBufferChunk : AudioSampleBuffer → AudioSampleBuffer)
    (p : TraKmeterAudioProcessor D) (buffer : AudioSampleBuffer) (rb : AudioRingBuffer)
    (i : Nat)
    (hvalid : p.bSampleRateIsValid = true) (hch : 1 ≤ p.nNumInputChannels)
    (hplayer : p.audioFilePlayer = none) (hrb : p.pRingBufferInput = some rb)
    (hbypass : ¬ (h.selMixMode = true ∧ p.nDecibels ≠ 0))
    (hi : p.nNumInputChannels ≤ (i : Int) ∧ (i : Int) < h.getNumOutputChannels) :
    ∃ r, processBlock h B dither fillBufferChunk p buffer = some r ∧
      r.2.channels[i]? = buffer.channels[i]?.map (fun ch => List.replicate ch.length 0) := by
  refine ⟨_, processBlock_main h B dither fillBufferChunk p buffer rb hvalid hch hrb, ?_⟩
  have hstage : processBlockBuffer h dither fillBufferChunk p buffer
      = (clearChannels buffer p.nNumInputChannels h.getNumOutputChannels, p.pDither) := by
    simp only [processBlockBuffer, hplayer, Option.isSome_none, Bool.false_eq_true, if_false]
    rw [if_neg hbypass]
  show (processBlockBuffer h dither fillBufferChunk p buffer).1.channels[i]? = _
  rw [hstage, clearChannels_getElem? buffer _ _ i (by omega), if_pos hi]

theorem ditherBuffer_getElem? {D : Type} (dither : D → ℚ → ℚ × D) (dGain : ℚ)
    (chans : List (List ℚ)) : ∀ (st : D) (i : Nat), ∃ st' : D,
    (ditherBuffer dither dGain st chans).1[i]?
      = chans[i]?.map (fun ch => (ditherChannel dither dGain st' ch).1) := by
  induction chans with
  | nil => intro st i; exact ⟨st, by simp [ditherBuffer]⟩
  | cons ch rest ih =>
    intro st i
    cases i with
    | zero => exact ⟨st, by simp [ditherBuffer]⟩
    | succ i =>
      obtain ⟨st', hst'⟩ := ih (ditherChannel dither dGain st ch).2 i
      exact ⟨st', by simpa [ditherBuffer] using hst'⟩

theorem processBlock_active_dithers_cleared {D : Type} (h : Host) (B : Int)
    (dither : D → ℚ → ℚ × D) (fillBufferChunk : AudioSampleBuffer → AudioSampleBuffer)
    (p : TraKmeterAudioProcessor D) (buffer : AudioSampleBuffer) (rb : AudioRingBuffer)
    (i : Nat)
    (hvalid : p.bSampleRateIsValid = true) (hch : 1 ≤ p.nNumInputChannels)
    (hplayer : p.audioFilePlayer = none) (hrb : p.pRingBufferInput = some rb)
    (hmix : h.selMixMode = true ∧ p.nDecibels ≠ 0)
    (hi : p.nNumInputChannels ≤ (i : Int) ∧ (i : Int) < h.getNumOutputChannels) :
    ∃ r st', processBlock h B dither fillBufferChunk p buffer = some r ∧
      r.2.channels[i]? = buffer.channels[i]?.map
        (fun ch => (ditherChannel dither p.dGain st' (List.replicate ch.length 0)).1) := by
  have hstage : (processBlockBuffer h dither fillBufferChunk p buffer).1.channels
      = (ditherBuffer dither p.dGain p.pDither
          (clearChannels buffer p.nNumInputChannels h.getNumOutputChannels).channels).1 := by
    simp only [processBlockBuffer, hplayer, Option.isSome_none, Bool.false_eq_true, if_false]
    rw [if_pos hmix]
  obtain ⟨st', hst'⟩ := ditherBuffer_getElem? dither p.dGain
    (clearChannels buffer p.nNumInputChannels h.getNumOutputChannels).channels p.pDither i
  refine ⟨_, st', processBlock_main h B dither fillBufferChunk p buffer rb hvalid hch hrb, ?_⟩
  show (processBlockBuffer h dither fillBufferChunk p buffer).1.channels[i]? = _
  rw [hstage, hst', clearChannels_getElem? buffer _ _ i (by omega), if_pos hi, Option.map_map]
  rfl


/-! ## MeterBarPeak: the segments in closed form -/

theorem trueThresholdBefore_bounds (n : Nat) :
    -90 - 100 * (n : Int) ≤ trueThresholdBefore n ∧ trueThresholdBefore n ≤ -90 := by
  unfold trueThresholdBefore
  split_ifs <;> omega

theorem trueThresholdBefore_succ (n : Nat) :
    trueThresholdBefore (n + 1) = trueThresholdBefore n - thresholdDifference (trueThresholdBefore n) := by
  unfold trueThresholdBefore thresholdDifference
  split_ifs <;> omega

theorem thresholdDifference_bounds (t : Int) :
    10 ≤ thresholdDifference t ∧ thresholdDifference t ≤ 100 := by
  unfold thresholdDifference
  split_ifs <;> omega

theorem segmentThresholdTenths_eq (c : Int) (n : Nat) :
    segmentThresholdTenths c n = 10 * c + trueThresholdBefore (n + 1) := by
  unfold segmentThresholdTenths trueThresholdBefore
  split_ifs <;> omega

theorem segmentRangeDb_eq (n : Nat) :
    segmentRangeDb n = (thresholdDifference (trueThresholdBefore n) : ℚ) / 10 := by
  unfold segmentRangeDb thresholdDifference trueThresholdBefore
  split_ifs <;> first | omega | norm_num

theorem segmentLoopBody_closed (nCrestFactor : Int) (display_peaks : Bool) (m : Nat)
    (st : SegmentLoopState)
    (hthr : st.nThreshold = nCrestFactor + trueThresholdBefore m)
    (htrue : st.nTrueThreshold = trueThresholdBefore m)
    (hlo : -2147483648 ≤ nCrestFactor - 100 * ((m : Int) + 1) - 90)
    (hhi : nCrestFactor + 100 * ((m : Int) + 1) + 90 ≤ 2147483647) :
    (segmentLoopBody nCrestFactor display_peaks st).2 = segmentBuilt nCrestFactor display_peaks m ∧
    (segmentLoopBody nCrestFactor display_peaks st).1.nThreshold
      = nCrestFactor + trueThresholdBefore (m + 1) ∧
    (segmentLoopBody nCrestFactor display_peaks st).1.nTrueThreshold
      = trueThresholdBefore (m + 1) := by
  have hb := trueThresholdBefore_bounds (m + 1)
  have hsucc := trueThresholdBefore_succ m
  push_cast at hb
  have h1 : wrapInt32 (nCrestFactor + trueThresholdBefore m
        - thresholdDifference (trueThresholdBefore m))
      = nCrestFactor + trueThresholdBefore (m + 1) := by
    rw [wrapInt32_of_range (by omega) (by omega)]
    omega
  have h2 : wrapInt32 (nCrestFactor + trueThresholdBefore (m + 1) - nCrestFactor)
      = trueThresholdBefore (m + 1) := by
    rw [wrapInt32_of_range (by omega) (by omega)]
    omega
  simp only [segmentLoopBody, segmentBuilt, hthr, htrue, h1, h2]
  exact ⟨trivial, trivial, trivial⟩

theorem segmentLoop_getElem? (nCrestFactor : Int) (display_peaks : Bool) (k : Nat) :
    ∀ (m : Nat) (st : SegmentLoopState),
      st.nThreshold = nCrestFactor + trueThresholdBefore m →
      st.nTrueThreshold = trueThresholdBefore m →
      -2147483648 ≤ nCrestFactor - 100 * ((m : Int) + k) - 90 →
      nCrestFactor + 100 * ((m : Int) + k) + 90 ≤ 2147483647 →
      ∀ i, i < k →
        (segmentLoop nCrestFactor display_peaks k st)[i]?
          = some (segmentBuilt nCrestFactor display_peaks (m + i)) := by
  induction k with
  | zero => intro m st _ _ _ _ i hi; omega
  | succ k ih =>
    intro m st hthr htrue hlo hhi i hi
    push_cast at hlo hhi
    obtain ⟨hseg, hthr1, htrue1⟩ := segmentLoopBody_closed nCrestFactor display_peaks m st
      hthr htrue (by omega) (by omega)
    cases i with
    | zero =>
      simp only [segmentLoop, List.getElem?_cons_zero, hseg, Nat.add_zero]
    | succ i =>
      simp only [segmentLoop, List.getElem?_cons_succ]
      rw [ih (m + 1) _ hthr1 htrue1 (by push_cast; omega) (by push_cast; omega) i (by omega)]
      have hidx : m + 1 + i = m + (i + 1) := by omega
      rw [hidx]

theorem segmentLoopStart_values (nCrestFactor : Int) (show_combined_meters : Bool)
    (hlo : -2147483648 ≤ nCrestFactor - 90) (hhi : nCrestFactor + 90 ≤ 2147483647) :
    (segmentLoopStart nCrestFactor show_combined_meters).nThreshold
        = nCrestFactor + trueThresholdBefore 0 ∧
    (segmentLoopStart nCrestFactor show_combined_meters).nTrueThreshold
        = trueThresholdBefore 0 ∧
    (segmentLoopStart nCrestFactor show_combined_meters).fRange = 109 := by
  have hinit : (if show_combined_meters = true then (-90 : Int) else -90) = -90 := by
    split_ifs <;> rfl
  have htb : trueThresholdBefore 0 = -90 := rfl
  have h1 : wrapInt32 (-90 + nCrestFactor) = nCrestFactor + -90 := by
    rw [wrapInt32_of_range (by omega) (by omega)]
    omega
  have h2 : wrapInt32 (nCrestFactor + -90 - nCrestFactor) = -90 := by
    rw [wrapInt32_of_range (by omega) (by omega)]
    omega
  have h3 : wrapInt32 (nCrestFactor - (nCrestFactor + -90)) = 90 := by
    rw [wrapInt32_of_range (by omega) (by omega)]
    omega
  simp only [segmentLoopStart, hinit, htb, h1, h2, h3]
  refine ⟨trivial, trivial, ?_⟩
  norm_num

theorem create_segment (pos_x pos_y width number_of_bars crest_factor segment_height : Int)
    (display_peaks show_combined_meters : Bool) (n : Nat)
    (hn : (n : Int) < number_of_bars)
    (hlo : -2147483648 ≤ 10 * crest_factor - 100 * number_of_bars - 90)
    (hhi : 10 * crest_factor + 100 * number_of_bars + 90 ≤ 2147483647) :
    (MeterBarPeak.create pos_x pos_y width number_of_bars crest_factor segment_height
        display_peaks show_combined_meters).pMeterSegments[n]?
      = some (segmentBuilt (10 * crest_factor) display_peaks n) := by
  have hcf : wrapInt32 (10 * crest_factor) = 10 * crest_factor :=
    wrapInt32_of_range (by omega) (by omega)
  obtain ⟨hthr, htrue, _⟩ := segmentLoopStart_values (10 * crest_factor) show_combined_meters
    (by omega) (by omega)
  have hbars : ((number_of_bars.toNat : Nat) : Int) = number_of_bars := Int.toNat_of_nonneg (by omega)
  have hget := segmentLoop_getElem? (10 * crest_factor) display_peaks number_of_bars.toNat 0
    (segmentLoopStart (10 * crest_factor) show_combined_meters) hthr htrue
    (by rw [hbars]; push_cast; omega) (by rw [hbars]; push_cast; omega) n (by omega)
  simp only [MeterBarPeak.create, hcf]
  rw [hget, Nat.zero_add]

theorem trueThresholdBefore_strictAnti (m n : Nat) (hmn : m < n) :
    trueThresholdBefore n < trueThresholdBefore m := by
  unfold trueThresholdBefore
  split_ifs <;> omega

theorem create_ignores_show_combined_meters
    (pos_x pos_y width number_of_bars crest_factor segment_height : Int) (display_peaks : Bool) :
    MeterBarPeak.create pos_x pos_y width number_of_bars crest_factor segment_height
        display_peaks true
      = MeterBarPeak.create pos_x pos_y width number_of_bars crest_factor segment_height
        display_peaks false := rfl

/-- C12: in `MeterBarPeak` the crest factor is a pure offset of the displayed
range. For every crest factor `c`, bar count and segment index `n` (within
the `int` range), the threshold of segment `n` built with crest factor `c` is
the threshold of segment `n` built with crest factor 0 plus `c` dB, that is
plus `10 c` in tenths of a decibel; range and colour of the segment are the
same for both. -/
theorem crest_factor_is_threshold_offset
    (pos_x pos_y width number_of_bars crest_factor segment_height : Int)
    (display_peaks show_combined_meters : Bool) (n : Nat)
    (hn : (n : Int) < number_of_bars)
    (hlo : -2147483648 ≤ 10 * crest_factor - 100 * number_of_bars - 90)
    (hhi : 10 * crest_factor + 100 * number_of_bars + 90 ≤ 2147483647) :
    ∃ s s0,
      (MeterBarPeak.create pos_x pos_y width number_of_bars crest_factor segment_height
        display_peaks show_combined_meters).pMeterSegments[n]? = some s ∧
      (MeterBarPeak.create pos_x pos_y width number_of_bars 0 segment_height
        display_peaks show_combined_meters).pMeterSegments[n]? = some s0 ∧
      s.fThreshold = s0.fThreshold + crest_factor ∧
      10 * s.fThreshold = 10 * s0.fThreshold + 10 * crest_factor ∧
      s.fRange = s0.fRange ∧ s.nColor = s0.nColor := by
  have hc := create_segment pos_x pos_y width number_of_bars crest_factor segment_height
    display_peaks show_combined_meters n hn hlo hhi
  have h0 := create_segment pos_x pos_y width number_of_bars 0 segment_height
    display_peaks show_combined_meters n hn (by omega) (by omega)
  refine ⟨_, _, hc, h0, ?_, ?_, rfl, rfl⟩
  · simp only [segmentBuilt]
    push_cast
    ring
  · simp only [segmentBuilt]
    push_cast
    ring

/-- Witness of C12: segment 17 of a bar of 26 segments, crest factor 20. -/
theorem crest_factor_is_threshold_offset_witness :
    ∃ s s0,
      (MeterBarPeak.create 0 0 12 26 20 5 true false).pMeterSegments[17]? = some s ∧
      (MeterBarPeak.create 0 0 12 26 0 5 true false).pMeterSegments[17]? = some s0 ∧
      s.fThreshold = s0.fThreshold + ((20 : Int) : ℚ) ∧
      10 * s.fThreshold = 10 * s0.fThreshold + 10 * ((20 : Int) : ℚ) ∧
      s.fRange = s0.fRange ∧ s.nColor = s0.nColor :=
  crest_factor_is_threshold_offset 0 0 12 26 20 5 true false 17 (by decide) (by decide)
    (by decide)

/-- C13, the code at the failing input: a bar of 26 segments with crest
factor 20. Before the loop `fRange` is 109 dB and `bDiscreteLevels` is true,
the range that would register hot signals up to +100 dB FS; the loop body
overwrites both before it constructs the segment, so the topmost segment
(`n = 0`) is built with a range of 1 dB above its threshold of 10 dB. -/
theorem top_segment_built_with_one_decibel :
    (segmentLoopStart (wrapInt32 (10 * 20)) false).fRange = 109 ∧
    (segmentLoopStart (wrapInt32 (10 * 20)) false).bDiscreteLevels = true ∧
    (MeterBarPeak.create 0 0 12 26 20 5 true false).pMeterSegments[0]?
      = some { fThreshold := 10, fRange := 1, bDiscreteLevels := false, display_peaks := true,
               nColor := 1 } := by
  have hcf : wrapInt32 (10 * 20) = 200 := by decide
  refine ⟨?_, rfl, ?_⟩
  · rw [hcf]
    exact (segmentLoopStart_values 200 false (by decide) (by decide)).2.2
  · rw [create_segment 0 0 12 26 20 5 true false 0 (by decide) (by decide) (by decide)]
    have htb : trueThresholdBefore (0 + 1) = -100 := by decide
    have htb0 : trueThresholdBefore 0 = -90 := by decide
    have hdiff : thresholdDifference (-90) = 10 := by decide
    have hcol : segmentColor (-100) = 1 := by decide
    simp only [segmentBuilt, htb, htb0, hdiff, hcol]
    norm_num

/-- C14: for every crest factor `c` and every segment index `n` of a
`MeterBarPeak` (within the `int` range), the threshold of segment `n` in
tenths of a decibel is `10c - 100 - 10n` for `n <= 16`, `10c - 300` for
`n = 17` and `10c - 400 - 100 (n - 18)` for `n >= 18`, with ranges of 1 dB,
4 dB and 10 dB. The thresholds fall strictly with `n`, and the segments tile
the scale: threshold plus range of segment `n` is the threshold of segment
`n - 1`, and `c - 9` dB for segment 0. The bar does not depend on
`show_combined_meters`. -/
theorem segments_tile_the_scale
    (pos_x pos_y width number_of_bars crest_factor segment_height : Int)
    (display_peaks show_combined_meters : Bool) (n : Nat)
    (hn : (n : Int) < number_of_bars)
    (hlo : -2147483648 ≤ 10 * crest_factor - 100 * number_of_bars - 90)
    (hhi : 10 * crest_factor + 100 * number_of_bars + 90 ≤ 2147483647) :
    ∃ s,
      (MeterBarPeak.create pos_x pos_y width number_of_bars crest_factor segment_height
        display_peaks show_combined_meters).pMeterSegments[n]? = some s ∧
      10 * s.fThreshold = ((segmentThresholdTenths crest_factor n : Int) : ℚ) ∧
      s.fRange = segmentRangeDb n ∧
      (∀ m : Nat, m < n → ∃ sm,
        (MeterBarPeak.create pos_x pos_y width number_of_bars crest_factor segment_height
          display_peaks show_combined_meters).pMeterSegments[m]? = some sm ∧
        s.fThreshold < sm.fThreshold) ∧
      (if n = 0 then
        s.fThreshold + s.fRange = (crest_factor : ℚ) - 9
      else
        ∃ sp,
          (MeterBarPeak.create pos_x pos_y width number_of_bars crest_factor segment_height
            display_peaks show_combined_meters).pMeterSegments[n - 1]? = some sp ∧
          s.fThreshold + s.fRange = sp.fThreshold) ∧
      MeterBarPeak.create pos_x pos_y width number_of_bars crest_factor segment_height
          display_peaks true
        = MeterBarPeak.create pos_x pos_y width number_of_bars crest_factor segment_height
          display_peaks false := by
  have hseg : ∀ m : Nat, m ≤ n →
      (MeterBarPeak.create pos_x pos_y width number_of_bars crest_factor segment_height
        display_peaks show_combined_meters).pMeterSegments[m]?
        = some (segmentBuilt (10 * crest_factor) display_peaks m) := fun m hm =>
    create_segment pos_x pos_y width number_of_bars crest_factor segment_height
      display_peaks show_combined_meters m (by omega) hlo hhi
  have hsum : ∀ k : Nat,
      (segmentBuilt (10 * crest_factor) display_peaks k).fThreshold
        + (segmentBuilt (10 * crest_factor) display_peaks k).fRange
        = ((10 * crest_factor + trueThresholdBefore k : Int) : ℚ) * (1 / 10) := by
    intro k
    simp only [segmentBuilt, trueThresholdBefore_succ k]
    push_cast
    ring
  refine ⟨_, hseg n le_rfl, ?_, ?_, ?_, ?_,
    create_ignores_show_combined_meters pos_x pos_y width number_of_bars crest_factor
      segment_height display_peaks⟩
  · rw [segmentThresholdTenths_eq]
    simp only [segmentBuilt]
    push_cast
    ring
  · rw [segmentRangeDb_eq]
    rfl
  · intro m hm
    refine ⟨_, hseg m hm.le, ?_⟩
    have hlt := trueThresholdBefore_strictAnti (m + 1) (n + 1) (by omega)
    have hq : ((10 * crest_factor + trueThresholdBefore (n + 1) : Int) : ℚ)
        < ((10 * crest_factor + trueThresholdBefore (m + 1) : Int) : ℚ) := by
      exact_mod_cast (by omega : 10 * crest_factor + trueThresholdBefore (n + 1)
        < 10 * crest_factor + trueThresholdBefore (m + 1))
    simp only [segmentBuilt]
    linarith
  · by_cases h0 : n = 0
    · rw [if_pos h0, hsum]
      subst h0
      have htb0 : trueThresholdBefore 0 = -90 := by decide
      rw [htb0]
      push_cast
      ring
    · rw [if_neg h0]
      refine ⟨_, hseg (n - 1) (by omega), ?_⟩
      rw [hsum]
      have hidx : n - 1 + 1 = n := by omega
      simp only [segmentBuilt, hidx]

/-- Witness of C14: segment 18 of a bar of 26 segments, crest factor 20. -/
theorem segments_tile_the_scale_witness :
    ∃ s,
      (MeterBarPeak.create 0 0 12 26 20 5 true false).pMeterSegments[18]? = some s ∧
      10 * s.fThreshold = ((segmentThresholdTenths 20 18 : Int) : ℚ) ∧
      s.fRange = segmentRangeDb 18 ∧
      (∀ m : Nat, m < 18 → ∃ sm,
        (MeterBarPeak.create 0 0 12 26 20 5 true false).pMeterSegments[m]? = some sm ∧
        s.fThreshold < sm.fThreshold) ∧
      (if 18 = 0 then
        s.fThreshold + s.fRange = ((20 : Int) : ℚ) - 9
      else
        ∃ sp,
          (MeterBarPeak.create 0 0 12 26 20 5 true false).pMeterSegments[18 - 1]? = some sp ∧
          s.fThreshold + s.fRange = sp.fThreshold) ∧
      MeterBarPeak.create 0 0 12 26 20 5 true true = MeterBarPeak.create 0 0 12 26 20 5 true false :=
  segments_tile_the_scale 0 0 12 26 20 5 true false 18 (by decide) (by decide) (by decide)

end TraKmeter
